import Mathlib

/-!
Verification of the conversation checkpoint store of the astra repository
(`business_use_cases/intelligent_portfolio_management/backend/utils.py`).

The development shallowly embeds the Python module: pure helpers become Lean
functions, the Cosmos DB containers become explicit list-valued state threaded
through each operation, and fallible paths return `Except`/`Option`.  The
pluggable typed serializer (`self.serde` plus base64 transport) is modelled as
an injective identity pair with explicit failure cases, because none of the
examined properties depend on the byte-level payload format.
-/

/-! ### Storage values

JSON-compatible trees as stored in Cosmos DB documents.  `SArr`/`SObj` are the
list spines (kept as dedicated mutual inductives so that all recursion below is
structural and kernel-reducible). -/

mutual

inductive SVal where
  | s (v : String)
  | i (v : Int)
  | f (v : Float)
  | b (v : Bool)
  | null
  | arr (xs : SArr)
  | obj (kvs : SObj)

inductive SArr where
  | nil
  | cons (hd : SVal) (tl : SArr)

inductive SObj where
  | nil
  | cons (k : String) (v : SVal) (tl : SObj)

end

/-- First value bound to a key, mirroring Python dict lookup `obj.get(k)`. -/
def SObj.find? (kvs : SObj) (key : String) : Option SVal :=
  match kvs with
  | .nil => none
  | .cons k v tl => if k = key then some v else SObj.find? tl key

/-- Python `k in obj` key-membership test. -/
def SObj.hasKey (kvs : SObj) (key : String) : Bool :=
  match kvs with
  | .nil => false
  | .cons k _ tl => k = key || SObj.hasKey tl key

/-- Python `len` of a stored list. -/
def SArr.length : SArr → Nat
  | .nil => 0
  | .cons _ tl => 1 + SArr.length tl

/-! ### Python datetimes

A model of `datetime.datetime` values and of the parts of the standard library
the codec calls: `datetime.fromisoformat` (as invoked on strings that passed
the heuristic in `deserialize_from_cosmosdb`) and `str.replace('Z', '+00:00')`.
The timezone is an offset in minutes; `none` models a naive datetime. -/

structure PyDateTime where
  year : Nat
  month : Nat
  day : Nat
  hour : Nat
  minute : Nat
  second : Nat
  microsecond : Nat
  tzOffsetMinutes : Option Int
deriving DecidableEq

/-- Python `s.replace('Z', '+00:00')` over the character list of `s`. -/
def pyReplaceZ (cs : List Char) : List Char :=
  match cs with
  | [] => []
  | c :: rest =>
      if c = 'Z' then '+' :: '0' :: '0' :: ':' :: '0' :: '0' :: pyReplaceZ rest
      else c :: pyReplaceZ rest

/-- Value of one ASCII digit. -/
def digitVal (c : Char) : Option Nat :=
  if c.isDigit then some (c.toNat - 48) else none

/-- Parse exactly two digits, returning the value and the rest. -/
def twoDigits (cs : List Char) : Option (Nat × List Char) :=
  match cs with
  | a :: b :: rest =>
      match digitVal a, digitVal b with
      | some x, some y => some (x * 10 + y, rest)
      | _, _ => none
  | _ => none

/-- Gregorian leap-year rule used by `datetime`'s calendar validation. -/
def isLeapYear (y : Nat) : Bool :=
  (y % 4 = 0 && y % 100 ≠ 0) || y % 400 = 0

/-- Number of days in a month, as validated by the `datetime` constructor. -/
def daysInMonth (y m : Nat) : Nat :=
  if m = 2 then (if isLeapYear y then 29 else 28)
  else if m = 4 || m = 6 || m = 9 || m = 11 then 30
  else 31

/-- Parse the `YYYY-MM-DD` date prefix accepted by `datetime.fromisoformat`. -/
def parseIsoDate (cs : List Char) : Option (Nat × Nat × Nat) :=
  match cs with
  | [y1, y2, y3, y4, '-', m1, m2, '-', d1, d2] =>
      match digitVal y1, digitVal y2, digitVal y3, digitVal y4,
            digitVal m1, digitVal m2, digitVal d1, digitVal d2 with
      | some a, some b, some c, some d, some m, some n, some p, some q =>
          let year := ((a * 10 + b) * 10 + c) * 10 + d
          let month := m * 10 + n
          let day := p * 10 + q
          if 1 ≤ month && month ≤ 12 && 1 ≤ day && day ≤ daysInMonth year month
          then some (year, month, day) else none
      | _, _, _, _, _, _, _, _ => none
  | _ => none

/-- Parse a fractional-seconds suffix of one to six digits into microseconds. -/
def parseFrac (cs : List Char) : Option Nat :=
  if cs.length = 0 || cs.length > 6 || !(cs.all Char.isDigit) then none
  else some ((cs.foldl (fun a c => a * 10 + (c.toNat - 48)) 0) *
             (10 ^ (6 - cs.length)))

/-- Parse `HH`, `HH:MM`, `HH:MM:SS` or `HH:MM:SS.ffffff` into
(hour, minute, second, microsecond). -/
def parseIsoTime (cs : List Char) : Option (Nat × Nat × Nat × Nat) :=
  match twoDigits cs with
  | none => none
  | some (h, r1) =>
      if h > 23 then none else
      match r1 with
      | [] => some (h, 0, 0, 0)
      | ':' :: r2 =>
          match twoDigits r2 with
          | none => none
          | some (m, r3) =>
              if m > 59 then none else
              match r3 with
              | [] => some (h, m, 0, 0)
              | ':' :: r4 =>
                  match twoDigits r4 with
                  | none => none
                  | some (sec, r5) =>
                      if sec > 59 then none else
                      match r5 with
                      | [] => some (h, m, sec, 0)
                      | '.' :: frac =>
                          match parseFrac frac with
                          | some micro => some (h, m, sec, micro)
                          | none => none
                      | _ => none
              | _ => none
      | _ => none

/-- Split the time-of-day text from a trailing UTC-offset part introduced by
`+` or `-`; the Bool marks a negative offset. -/
def splitAtSign (cs : List Char) : List Char × Option (Bool × List Char) :=
  match cs with
  | [] => ([], none)
  | '+' :: rest => ([], some (false, rest))
  | '-' :: rest => ([], some (true, rest))
  | c :: rest =>
      let (a, sgn) := splitAtSign rest
      (c :: a, sgn)

/-- Parse a UTC offset body `HH` or `HH:MM` into minutes. -/
def parseOffsetBody (cs : List Char) : Option Nat :=
  match twoDigits cs with
  | none => none
  | some (oh, r1) =>
      if oh > 23 then none else
      match r1 with
      | [] => some (oh * 60)
      | ':' :: r2 =>
          match twoDigits r2 with
          | some (om, []) => if om > 59 then none else some (oh * 60 + om)
          | _ => none
      | _ => none

/-- Model of `datetime.fromisoformat` on the inputs reachable from the codec:
a `YYYY-MM-DD` date, one separator character, a time of day and an optional
numeric UTC offset.  Returns `none` where Python raises `ValueError`. -/
def pyFromIsoformat (cs : List Char) : Option PyDateTime :=
  match parseIsoDate (cs.take 10) with
  | none => none
  | some (year, month, day) =>
      match cs.drop 10 with
      | [] => some ⟨year, month, day, 0, 0, 0, 0, none⟩
      | _ :: timeAndOffset =>
          let (timePart, offsetPart) := splitAtSign timeAndOffset
          match parseIsoTime timePart with
          | none => none
          | some (h, m, sec, micro) =>
              match offsetPart with
              | none => some ⟨year, month, day, h, m, sec, micro, none⟩
              | some (neg, body) =>
                  match parseOffsetBody body with
                  | none => none
                  | some mins =>
                      let signed : Int := if neg then -(mins : Int) else (mins : Int)
                      some ⟨year, month, day, h, m, sec, micro, some signed⟩

/-- The heuristic of `deserialize_from_cosmosdb` deciding whether a stored
string looks like an ISO datetime:
`len(obj) > 10 and 'T' in obj and (obj.endswith('Z') or '+' in obj[-6:])`. -/
def looksLikeIsoDatetime (s : String) : Bool :=
  s.data.length > 10 && s.data.contains 'T' &&
    (s.data.getLast? = some 'Z' || (s.data.reverse.take 6).contains '+')

/-- Two-digit zero-padded rendering used by `isoformat`. -/
def pad2 (n : Nat) : String :=
  (if n < 10 then "0" else "") ++ toString n

/-- Four-digit zero-padded year rendering used by `isoformat`. -/
def pad4 (n : Nat) : String :=
  (if n < 10 then "000" else if n < 100 then "00" else if n < 1000 then "0" else "")
    ++ toString n

/-- Six-digit zero-padded microsecond rendering used by `isoformat`. -/
def pad6 (n : Nat) : String :=
  (if n < 10 then "00000" else if n < 100 then "0000" else if n < 1000 then "000"
   else if n < 10000 then "00" else if n < 100000 then "0" else "")
    ++ toString n

/-- Model of `datetime.isoformat`, used by `serialize_for_cosmosdb` on
datetime values. -/
def pyIsoformat (d : PyDateTime) : String :=
  pad4 d.year ++ "-" ++ pad2 d.month ++ "-" ++ pad2 d.day ++ "T" ++
  pad2 d.hour ++ ":" ++ pad2 d.minute ++ ":" ++ pad2 d.second ++
  (if d.microsecond = 0 then "" else "." ++ pad6 d.microsecond) ++
  (match d.tzOffsetMinutes with
   | none => ""
   | some off =>
       let mins := off.natAbs
       (if off < 0 then "-" else "+") ++ pad2 (mins / 60) ++ ":" ++ pad2 (mins % 60))

/-! ### Native values

In-memory trees handled by the codec: the JSON-like primitives, the three
LangChain message classes (an object with `content` and `type` attributes),
generic Python objects carrying a `__dict__` of fields, and datetimes.  A
message's `content`, `additional_kwargs` and `response_metadata` are copied
verbatim (without recursive conversion) by both codec directions, so they are
carried here as storage values. -/

inductive MsgKind where
  | human
  | ai
  | system
deriving DecidableEq

/-- Python class name of a message, used as the stored type tag. -/
def MsgKind.className : MsgKind → String
  | .human => "HumanMessage"
  | .ai => "AIMessage"
  | .system => "SystemMessage"

/-- Value of the `type` attribute of a LangChain message. -/
def MsgKind.typeName : MsgKind → String
  | .human => "human"
  | .ai => "ai"
  | .system => "system"

mutual

inductive NVal where
  | s (v : String)
  | i (v : Int)
  | f (v : Float)
  | b (v : Bool)
  | null
  | arr (xs : NArr)
  | obj (kvs : NObj)
  | msg (kind : MsgKind) (content : SVal) (additional_kwargs : SObj)
        (response_metadata : SObj) (msgId : Option String)
  | pyobj (className : String) (fields : NObj)
  | dt (d : PyDateTime)

inductive NArr where
  | nil
  | cons (hd : NVal) (tl : NArr)

inductive NObj where
  | nil
  | cons (k : String) (v : NVal) (tl : NObj)

end

/-- First value bound to a key of a native dict. -/
def NObj.find? (kvs : NObj) (key : String) : Option NVal :=
  match kvs with
  | .nil => none
  | .cons k v tl => if k = key then some v else NObj.find? tl key

/-- Python `len` of a native list. -/
def NArr.length : NArr → Nat
  | .nil => 0
  | .cons _ tl => 1 + NArr.length tl

/-- Encoding of a message `id` attribute: Python `None` becomes JSON null. -/
def encodeMsgId : Option String → SVal
  | none => .null
  | some v => .s v

mutual

/-- Model of `serialize_for_cosmosdb` (utils.py, lines 135-171): objects with
`content` and `type` attributes (the LangChain messages) become a dict tagged
with the class name; other objects with a `__dict__` (here `pyobj`, modelled
as lacking `content`/`type` attributes) become a tagged dict of their
recursively encoded fields; dicts and lists recurse; primitives pass through;
datetimes become their `isoformat` string.  The `str(obj)` fallback branch is
unreachable in this model because every native constructor falls in one of the
earlier branches. -/
def serialize_for_cosmosdb : NVal → SVal
  | .msg kind content ak rm msgId =>
      .obj (.cons "_type" (.s kind.className)
           (.cons "content" content
           (.cons "type" (.s kind.typeName)
           (.cons "additional_kwargs" (.obj ak)
           (.cons "response_metadata" (.obj rm)
           (.cons "id" (encodeMsgId msgId) .nil))))))
  | .pyobj className fields =>
      .obj (.cons "_type" (.s className) (serialize_for_cosmosdb_obj fields))
  | .obj kvs => .obj (serialize_for_cosmosdb_obj kvs)
  | .arr xs => .arr (serialize_for_cosmosdb_arr xs)
  | .s v => .s v
  | .i v => .i v
  | .f v => .f v
  | .b v => .b v
  | .null => .null
  | .dt d => .s (pyIsoformat d)

/-- Elementwise encoding of a native list (also used for tuples, which the
source turns into JSON arrays). -/
def serialize_for_cosmosdb_arr : NArr → SArr
  | .nil => .nil
  | .cons x xs => .cons (serialize_for_cosmosdb x) (serialize_for_cosmosdb_arr xs)

/-- Valuewise encoding of a native dict (or of an object's `__dict__`). -/
def serialize_for_cosmosdb_obj : NObj → SObj
  | .nil => .nil
  | .cons k v tl => .cons k (serialize_for_cosmosdb v) (serialize_for_cosmosdb_obj tl)

end

/-- Reconstruction of a LangChain message from a stored dict whose `_type` tag
named one of the three message classes, mirroring
`message_class(content=obj.get("content", ""), additional_kwargs=obj.get("additional_kwargs", {}), response_metadata=obj.get("response_metadata", {}), id=obj.get("id"))`.
Values of unexpected shapes for the keyword fields fall back to the
constructor defaults. -/
def decodeMessage (kind : MsgKind) (kvs : SObj) : NVal :=
  .msg kind
    ((kvs.find? "content").getD (.s ""))
    (match kvs.find? "additional_kwargs" with
     | some (.obj o) => o
     | _ => .nil)
    (match kvs.find? "response_metadata" with
     | some (.obj o) => o
     | _ => .nil)
    (match kvs.find? "id" with
     | some (.s v) => some v
     | _ => none)

/-- String branch of `deserialize_from_cosmosdb`: strings matching the ISO
heuristic are opportunistically parsed via
`datetime.fromisoformat(obj.replace('Z', '+00:00'))`, keeping the original
string when parsing raises `ValueError`. -/
def deserializeString (v : String) : NVal :=
  if looksLikeIsoDatetime v then
    match pyFromIsoformat (pyReplaceZ v.data) with
    | some d => .dt d
    | none => .s v
  else .s v

mutual

/-- Model of `deserialize_from_cosmosdb` (utils.py, lines 173-212): dicts
whose `_type` tag names a message class are rebuilt as that message; dicts
with any other `_type` value decode to a plain dict with the tag dropped;
other dicts and lists recurse; ISO-looking strings are parsed to datetimes;
everything else passes through. -/
def deserialize_from_cosmosdb : SVal → NVal
  | .obj kvs =>
      match kvs.find? "_type" with
      | some (.s "HumanMessage") => decodeMessage .human kvs
      | some (.s "AIMessage") => decodeMessage .ai kvs
      | some (.s "SystemMessage") => decodeMessage .system kvs
      | some _ => .obj (deserialize_from_cosmosdb_obj_drop kvs)
      | none => .obj (deserialize_from_cosmosdb_obj kvs)
  | .arr xs => .arr (deserialize_from_cosmosdb_arr xs)
  | .s v => deserializeString v
  | .i v => .i v
  | .f v => .f v
  | .b v => .b v
  | .null => .null

/-- Elementwise decoding of a stored list. -/
def deserialize_from_cosmosdb_arr : SArr → NArr
  | .nil => .nil
  | .cons x xs => .cons (deserialize_from_cosmosdb x) (deserialize_from_cosmosdb_arr xs)

/-- Valuewise decoding of a stored dict that carried no `_type` key. -/
def deserialize_from_cosmosdb_obj : SObj → NObj
  | .nil => .nil
  | .cons k v tl => .cons k (deserialize_from_cosmosdb v) (deserialize_from_cosmosdb_obj tl)

/-- Valuewise decoding of a stored dict with an unrecognized `_type` tag:
`{k: deserialize_from_cosmosdb(v) for k, v in obj.items() if k != "_type"}`. -/
def deserialize_from_cosmosdb_obj_drop : SObj → NObj
  | .nil => .nil
  | .cons k v tl =>
      if k = "_type" then deserialize_from_cosmosdb_obj_drop tl
      else .cons k (deserialize_from_cosmosdb v) (deserialize_from_cosmosdb_obj_drop tl)

end

/-- A native dict uses the reserved `_type` key. -/
def NObj.hasTypeKey : NObj → Bool
  | .nil => false
  | .cons k _ tl => k = "_type" || NObj.hasTypeKey tl

mutual

/-- Trees built solely from the constructs the round-trip claim ranges over
(messages, dicts, lists, strings, numbers, booleans, None), restricted to
those on which the string branch and the dict `_type` dispatch of
`deserialize_from_cosmosdb` invert `serialize_for_cosmosdb`: no string may
match the ISO-datetime heuristic and successfully parse, and no dict may use
the reserved key `_type`. -/
def NVal.roundTrippable : NVal → Bool
  | .s v => !(looksLikeIsoDatetime v && (pyFromIsoformat (pyReplaceZ v.data)).isSome)
  | .i _ => true
  | .f _ => true
  | .b _ => true
  | .null => true
  | .arr xs => NArr.roundTrippable xs
  | .obj kvs => !(NObj.hasTypeKey kvs) && NObj.roundTrippable kvs
  | .msg _ _ _ _ _ => true
  | .pyobj _ _ => false
  | .dt _ => false

/-- Every element of a native list is round-trippable. -/
def NArr.roundTrippable : NArr → Bool
  | .nil => true
  | .cons x xs => NVal.roundTrippable x && NArr.roundTrippable xs

/-- Every value of a native dict is round-trippable. -/
def NObj.roundTrippable : NObj → Bool
  | .nil => true
  | .cons _ v tl => NVal.roundTrippable v && NObj.roundTrippable tl

end

/-! ### Claim C1: codec round-trip -/

theorem find_type_none_of_encode (kvs : NObj) (h : NObj.hasTypeKey kvs = false) :
    SObj.find? (serialize_for_cosmosdb_obj kvs) "_type" = none := by
  cases kvs with
  | nil => rfl
  | cons k v tl =>
      simp only [NObj.hasTypeKey, Bool.or_eq_false_iff, decide_eq_false_iff_not] at h
      simp only [serialize_for_cosmosdb_obj, SObj.find?]
      rw [if_neg h.1]
      exact find_type_none_of_encode tl h.2

mutual

theorem roundtrip_val (v : NVal) (h : v.roundTrippable = true) :
    deserialize_from_cosmosdb (serialize_for_cosmosdb v) = v := by
  cases v with
  | s v =>
      simp only [NVal.roundTrippable, Bool.not_eq_true', Bool.and_eq_false_iff] at h
      simp only [serialize_for_cosmosdb, deserialize_from_cosmosdb, deserializeString]
      rcases h with h | h
      · simp [h]
      · have hn : pyFromIsoformat (pyReplaceZ v.data) = none := by
          cases hq : pyFromIsoformat (pyReplaceZ v.data) with
          | none => rfl
          | some d => rw [hq] at h; simp at h
        rw [hn]
        simp
  | i v => rfl
  | f v => rfl
  | b v => rfl
  | null => rfl
  | arr xs =>
      simp only [NVal.roundTrippable] at h
      simp only [serialize_for_cosmosdb, deserialize_from_cosmosdb]
      rw [roundtrip_arr xs h]
  | obj kvs =>
      simp only [NVal.roundTrippable, Bool.and_eq_true, Bool.not_eq_true'] at h
      simp only [serialize_for_cosmosdb, deserialize_from_cosmosdb]
      rw [find_type_none_of_encode kvs h.1]
      rw [roundtrip_obj kvs h.2]
  | msg kind content ak rm msgId => cases kind <;> cases msgId <;> rfl
  | pyobj c fields => exact absurd h (by simp [NVal.roundTrippable])
  | dt d => exact absurd h (by simp [NVal.roundTrippable])

theorem roundtrip_arr (xs : NArr) (h : xs.roundTrippable = true) :
    deserialize_from_cosmosdb_arr (serialize_for_cosmosdb_arr xs) = xs := by
  cases xs with
  | nil => rfl
  | cons x tl =>
      simp only [NArr.roundTrippable, Bool.and_eq_true] at h
      simp only [serialize_for_cosmosdb_arr, deserialize_from_cosmosdb_arr]
      rw [roundtrip_val x h.1, roundtrip_arr tl h.2]

theorem roundtrip_obj (kvs : NObj) (h : kvs.roundTrippable = true) :
    deserialize_from_cosmosdb_obj (serialize_for_cosmosdb_obj kvs) = kvs := by
  cases kvs with
  | nil => rfl
  | cons k v tl =>
      simp only [NObj.roundTrippable, Bool.and_eq_true] at h
      simp only [serialize_for_cosmosdb_obj, deserialize_from_cosmosdb_obj]
      rw [roundtrip_val v h.1, roundtrip_obj tl h.2]

end

/-- Claim C1 (corrected): decoding the encoding of any supported message
variant yields a message equal to it on all observable fields (content,
role/type, additional_kwargs, response_metadata, id); and
`deserialize_from_cosmosdb (serialize_for_cosmosdb x) = x` holds for every
tree composed solely of recognized constructs provided no string in the tree
matches the opportunistic ISO-8601 datetime heuristic with a parseable value
and no dict uses the reserved key `_type`. -/
theorem codec_roundtrip_amended :
    (∀ (kind : MsgKind) (content : SVal) (ak rm : SObj) (msgId : Option String),
      deserialize_from_cosmosdb
          (serialize_for_cosmosdb (NVal.msg kind content ak rm msgId)) =
        NVal.msg kind content ak rm msgId) ∧
    (∀ v : NVal, v.roundTrippable = true →
      deserialize_from_cosmosdb (serialize_for_cosmosdb v) = v) := by
  constructor
  · intro kind content ak rm msgId
    exact roundtrip_val (NVal.msg kind content ak rm msgId) rfl
  · exact roundtrip_val

/-- Witness for C1: a concrete dict holding a human message and a plain string
satisfies the side condition and round-trips. -/
theorem codec_roundtrip_amended_witness :
    (NVal.obj (.cons "messages"
        (.arr (.cons (.msg .human (.s "Hi") .nil .nil (some "m1"))
              (.cons (.s "plain text") .nil)))
        (.cons "count" (.i 2) .nil))).roundTrippable = true ∧
    deserialize_from_cosmosdb (serialize_for_cosmosdb
      (NVal.obj (.cons "messages"
        (.arr (.cons (.msg .human (.s "Hi") .nil .nil (some "m1"))
              (.cons (.s "plain text") .nil)))
        (.cons "count" (.i 2) .nil)))) =
      NVal.obj (.cons "messages"
        (.arr (.cons (.msg .human (.s "Hi") .nil .nil (some "m1"))
              (.cons (.s "plain text") .nil)))
        (.cons "count" (.i 2) .nil)) :=
  ⟨by decide, codec_roundtrip_amended.2 _ (by decide)⟩

/-- Counterexample to C1 as stated: the string
`2024-01-05T12:30:00Z` is a recognized construct (a string), yet decoding its
encoding yields a datetime object, not the string, because
`deserialize_from_cosmosdb` opportunistically parses ISO-8601-looking
strings. -/
theorem codec_roundtrip_counterexample :
    deserialize_from_cosmosdb
        (serialize_for_cosmosdb (NVal.s "2024-01-05T12:30:00Z")) ≠
      NVal.s "2024-01-05T12:30:00Z" := by
  have he : deserialize_from_cosmosdb
      (serialize_for_cosmosdb (NVal.s "2024-01-05T12:30:00Z")) =
      NVal.dt ⟨2024, 1, 5, 12, 30, 0, 0, some 0⟩ := rfl
  rw [he]
  intro hc
  exact NVal.noConfusion hc

/-! ### Checkpoint store state

The three Cosmos DB containers are modelled as lists of documents in insertion
order; a query without an ORDER BY clause returns matching documents in that
order.  `upsert_item` replaces the document with the same `id` within the same
logical partition, else appends.  The pluggable typed serializer behind
`dumps_typed`/`loads_typed` is modelled as the identity on an explicit value
type with a designated unserializable case; base64 transport is elided. -/

/-- Contents of `config["configurable"]`; each field is `none` when the key is
absent from the Python dict. -/
structure Configurable where
  thread_id : Option String
  checkpoint_ns : Option String
  checkpoint_id : Option String
  user_id : Option String
deriving DecidableEq

/-- A `RunnableConfig`; `none` models a config without a `configurable` key
(failing the `assert "configurable" in config`). -/
abbrev RunnableConfig := Option Configurable

/-- A LangGraph checkpoint payload: its `id` and its `channel_values` dict. -/
structure Checkpoint where
  id : String
  channel_values : List (String × NVal)

/-- A value handed to `put_writes`; `unserializable` marks a value on which
the typed serializer raises. -/
inductive WriteValue where
  | serializable (payload : String)
  | unserializable
deriving DecidableEq

/-- Model of `dumps_typed` (utils.py, lines 278-290) for pending-write
values: returns the `(type, data)` pair, raising `ValueError` (here
`Except.error`) when the underlying serializer fails. -/
def dumps_typed : WriteValue → Except String (String × WriteValue)
  | .serializable p => .ok ("json", .serializable p)
  | .unserializable => .error "Failed to serialize object"

/-- Checkpoint container document, with the fields written by `aput`
(utils.py, lines 542-551).  `checkpoint` and `metadata` carry the values
themselves (the typed codec and `dumps` are modelled as the identity). -/
structure CheckpointDoc where
  docId : String
  parent_checkpoint_id : Option String
  type : String
  checkpoint : Checkpoint
  metadata : NObj
  thread_id : String
  checkpoint_ns : String
  checkpoint_id : String

/-- Checkpoint-writes container document (utils.py, lines 590-600). -/
structure WriteDoc where
  docId : String
  thread_id : String
  checkpoint_ns : String
  checkpoint_id : String
  task_id : String
  idx : Nat
  channel : String
  type : String
  value : WriteValue
deriving DecidableEq

/-- Conversations container document (utils.py, lines 636-643). -/
structure ConversationDoc where
  id : String
  userId : String
  lastUpdated : String
  messages : SVal
  checkpointId : String
  metadata : SVal

/-- The three containers of the store. -/
structure CosmosDB where
  conversations : List ConversationDoc
  checkpoints : List CheckpointDoc
  writes : List WriteDoc

/-- Cosmos `upsert_item` against the checkpoints container (partition key
`/thread_id`): replaces the document with the same id in the same partition,
else appends. -/
def upsertCheckpointDoc (doc : CheckpointDoc) (docs : List CheckpointDoc) : List CheckpointDoc :=
  if docs.any (fun d => d.docId = doc.docId && d.thread_id = doc.thread_id) then
    docs.map (fun d => if d.docId = doc.docId && d.thread_id = doc.thread_id then doc else d)
  else docs ++ [doc]

/-- Cosmos `upsert_item` against the writes container (partition key
`/thread_id`). -/
def upsertWriteDoc (doc : WriteDoc) (docs : List WriteDoc) : List WriteDoc :=
  if docs.any (fun d => d.docId = doc.docId && d.thread_id = doc.thread_id) then
    docs.map (fun d => if d.docId = doc.docId && d.thread_id = doc.thread_id then doc else d)
  else docs ++ [doc]

/-- Cosmos `upsert_item` against the conversations container (partition key
`/userId`). -/
def upsertConversationDoc (doc : ConversationDoc) (docs : List ConversationDoc) : List ConversationDoc :=
  if docs.any (fun d => d.id = doc.id && d.userId = doc.userId) then
    docs.map (fun d => if d.id = doc.id && d.userId = doc.userId then doc else d)
  else docs ++ [doc]

/-- One step of the Cosmos `ORDER BY <key> DESC` model: insert before the
first element with a strictly smaller key. -/
def insertDescBy (key : α → String) (x : α) : List α → List α
  | [] => [x]
  | y :: ys => if key y < key x then x :: y :: ys else y :: insertDescBy key x ys

/-- Cosmos `ORDER BY <key> DESC` over string-valued fields (Cosmos compares
checkpoint ids and ISO timestamps as strings). -/
def sortDescBy (key : α → String) : List α → List α
  | [] => []
  | x :: xs => insertDescBy key x (sortDescBy key xs)

theorem mem_insertDescBy (key : α → String) (x a : α) (l : List α) :
    a ∈ insertDescBy key x l ↔ a = x ∨ a ∈ l := by
  induction l with
  | nil => simp [insertDescBy]
  | cons y ys ih =>
      simp only [insertDescBy]
      split
      · simp
      · simp only [List.mem_cons, ih]
        tauto

theorem mem_sortDescBy (key : α → String) (a : α) (l : List α) :
    a ∈ sortDescBy key l ↔ a ∈ l := by
  induction l with
  | nil => simp [sortDescBy]
  | cons y ys ih => simp [sortDescBy, mem_insertDescBy, ih]

theorem sortDescBy_eq_nil_iff (key : α → String) (l : List α) :
    sortDescBy key l = [] ↔ l = [] := by
  induction l with
  | nil => simp [sortDescBy]
  | cons y ys ih =>
      simp only [sortDescBy]
      constructor
      · intro h
        cases hs : sortDescBy key ys with
        | nil => rw [hs] at h; simp [insertDescBy] at h
        | cons z zs => rw [hs] at h; simp only [insertDescBy] at h; split at h <;> simp_all
      · intro h
        simp at h

theorem sortDescBy_head_max (key : α → String) (l : List α) (x : α) (xs : List α)
    (h : sortDescBy key l = x :: xs) : ∀ a ∈ l, key a ≤ key x := by
  induction l generalizing x xs with
  | nil => simp [sortDescBy] at h
  | cons y ys ih =>
      simp only [sortDescBy] at h
      cases hs : sortDescBy key ys with
      | nil =>
          rw [hs] at h
          simp only [insertDescBy] at h
          cases h
          have hy : ys = [] := (sortDescBy_eq_nil_iff key ys).mp hs
          subst hy
          simp
      | cons z zs =>
          rw [hs] at h
          simp only [insertDescBy] at h
          by_cases hlt : key z < key y
          · rw [if_pos hlt] at h
            cases h
            intro a ha
            rcases List.mem_cons.mp ha with rfl | ha
            · exact le_refl _
            · exact le_trans (ih z zs hs a ha) (le_of_lt hlt)
          · rw [if_neg hlt] at h
            cases h
            intro a ha
            rcases List.mem_cons.mp ha with rfl | ha
            · exact le_of_not_lt hlt
            · exact ih x zs hs a ha

theorem insertDescBy_perm (key : α → String) (x : α) (l : List α) :
    List.Perm (insertDescBy key x l) (x :: l) := by
  induction l with
  | nil => simp [insertDescBy]
  | cons y ys ih =>
      simp only [insertDescBy]
      split
      · exact List.Perm.refl _
      · exact ((ih.cons y).trans (List.Perm.swap x y ys))

theorem sortDescBy_perm (key : α → String) (l : List α) :
    List.Perm (sortDescBy key l) l := by
  induction l with
  | nil => simp [sortDescBy]
  | cons y ys ih => exact (insertDescBy_perm key y (sortDescBy key ys)).trans (ih.cons y)

/-! ### Checkpoint store operations -/

/-- Model of langgraph's `get_checkpoint_id` combined with the truthiness
test of the walrus assignment `if checkpoint_id := get_checkpoint_id(config)`
in `aget_tuple`: an absent or empty checkpoint id selects the latest-checkpoint
branch. -/
def truthyCheckpointId (c : Configurable) : Option String :=
  match c.checkpoint_id with
  | some v => if v = "" then none else some v
  | none => none

/-- The result bundle produced by `aget_tuple`/`alist`.  `pending_writes` is
`none` for tuples built by `alist`, which does not pass that argument. -/
structure CheckpointTuple where
  config : Configurable
  checkpoint : Checkpoint
  metadata : NObj
  parent_config : Option Configurable
  pending_writes : Option (List (String × String × WriteValue))

/-- Health of the underlying storage client during one retrieval: `fault`
models any exception raised by a query or by payload decoding, all of which
`aget_tuple` catches. -/
inductive StorageHealth where
  | ok
  | fault

/-- Query-and-build body of `aget_tuple` (utils.py, lines 352-417), after the
thread id and namespace have been read from the config.  With a (truthy)
checkpoint id the exact-match query runs, else the `ORDER BY checkpoint_id
DESC` query; `result[0]` is taken; the pending writes of that exact checkpoint
are attached; the parent config is included when `parent_checkpoint_id` is
truthy. -/
def aget_tuple_core (db : CosmosDB) (thread_id checkpoint_ns : String)
    (checkpointIdQuery : Option String) : Option CheckpointTuple :=
  let result : List CheckpointDoc :=
    match checkpointIdQuery with
    | some checkpoint_id =>
        db.checkpoints.filter (fun d =>
          d.thread_id = thread_id && d.checkpoint_ns = checkpoint_ns &&
          d.checkpoint_id = checkpoint_id)
    | none =>
        sortDescBy (fun d => d.checkpoint_id)
          (db.checkpoints.filter (fun d =>
            d.thread_id = thread_id && d.checkpoint_ns = checkpoint_ns))
  match result with
  | [] => none
  | doc :: _ =>
      let serialized_writes := db.writes.filter (fun w =>
        w.thread_id = thread_id && w.checkpoint_ns = checkpoint_ns &&
        w.checkpoint_id = doc.checkpoint_id)
      some
        { config := ⟨some thread_id, some checkpoint_ns, some doc.checkpoint_id, none⟩
          checkpoint := doc.checkpoint
          metadata := doc.metadata
          parent_config :=
            match doc.parent_checkpoint_id with
            | some p =>
                if p = "" then none
                else some ⟨some thread_id, some checkpoint_ns, some p, none⟩
            | none => none
          pending_writes :=
            some (serialized_writes.map (fun w => (w.task_id, w.channel, w.value))) }

/-- Model of `aget_tuple` (utils.py, lines 333-421): reads the thread id and
the namespace (defaulting to the empty string) and delegates to
`aget_tuple_core`.  A missing `configurable` key or `thread_id` key raises
inside the `try` and, like any storage fault, yields `None`. -/
def aget_tuple (db : CosmosDB) (config : RunnableConfig) (health : StorageHealth) :
    Option CheckpointTuple :=
  match health with
  | .fault => none
  | .ok =>
  match config with
  | none => none
  | some c =>
  match c.thread_id with
  | none => none
  | some thread_id =>
      aget_tuple_core db thread_id (c.checkpoint_ns.getD "") (truthyCheckpointId c)

/-- Model of `alist` (utils.py, lines 423-513).  Fail-soft paths (missing
config, missing `configurable`, missing `thread_id`, a `before` config
without a checkpoint id) yield the empty sequence.  The metadata filter
clause compares `c.metadata.{key}` against a value, but the stored `metadata`
field is a serialized payload string in Cosmos DB, so addressing a property
inside it is undefined and a non-empty filter matches no document. -/
def alist (db : CosmosDB) (config : Option RunnableConfig)
    (filter : List (String × SVal)) (before : Option RunnableConfig)
    (limit : Option Nat) : List CheckpointTuple :=
  match config with
  | none => []
  | some none => []
  | some (some c) =>
  match c.thread_id with
  | none => []
  | some thread_id =>
  let checkpoint_ns := c.checkpoint_ns.getD ""
  let base := db.checkpoints.filter (fun d =>
    d.thread_id = thread_id && d.checkpoint_ns = checkpoint_ns)
  let base := if filter.isEmpty then base else []
  let withBefore : Option (List CheckpointDoc) :=
    match before with
    | none => some base
    | some none => none
    | some (some bc) =>
        match bc.checkpoint_id with
        | none => none
        | some bcid => some (base.filter (fun d => d.checkpoint_id < bcid))
  match withBefore with
  | none => []
  | some docs =>
  let docs := sortDescBy (fun d => d.checkpoint_id) docs
  let docs := match limit with
    | none => docs
    | some n => docs.take n
  docs.map (fun doc =>
    { config := ⟨some doc.thread_id, some doc.checkpoint_ns, some doc.checkpoint_id, none⟩
      checkpoint := doc.checkpoint
      metadata := doc.metadata
      parent_config :=
        match doc.parent_checkpoint_id with
        | some p =>
            if p = "" then none
            else some ⟨some doc.thread_id, some doc.checkpoint_ns, some p, none⟩
        | none => none
      pending_writes := none })

/-- The conversation document built by `_update_conversation_document`
(utils.py, lines 625-643) from the checkpoint's channel values; `now` is the
`datetime.utcnow().isoformat()` timestamp, passed explicitly. -/
def conversationDocFor (thread_id user_id : String) (checkpoint : Checkpoint)
    (metadata : NObj) (now : String) : ConversationDoc :=
  let messages : NVal :=
    match checkpoint.channel_values.lookup "messages" with
    | some v => v
    | none => .arr .nil
  { id := thread_id
    userId := user_id
    lastUpdated := now
    messages := serialize_for_cosmosdb messages
    checkpointId := checkpoint.id
    metadata := serialize_for_cosmosdb (.obj metadata) }

/-- Model of `_update_conversation_document` (utils.py, lines 610-652): a
missing or empty `user_id` makes the directory update a logged no-op; a
missing `thread_id` raises (propagating to `aput`); otherwise the
conversation document is upserted. -/
def update_conversation_document (db : CosmosDB) (c : Configurable)
    (checkpoint : Checkpoint) (metadata : NObj) (now : String) :
    Except String CosmosDB :=
  match c.thread_id with
  | none => .error "KeyError: thread_id"
  | some thread_id =>
  match c.user_id with
  | none => .ok db
  | some user_id =>
      if user_id = "" then .ok db
      else
        let doc := conversationDocFor thread_id user_id checkpoint metadata now
        .ok { db with conversations := upsertConversationDoc doc db.conversations }

/-- Model of `aput` (utils.py, lines 515-565): builds and upserts the
checkpoint document (with `parent_checkpoint_id` taken from the incoming
config's `checkpoint_id`), triggers the conversation-directory update, and
returns the updated config.  A missing `configurable`, `thread_id` or
`checkpoint_ns` key raises inside the `try` and surfaces as the
`RuntimeError` of the `except` clause. -/
def aput (db : CosmosDB) (config : RunnableConfig) (checkpoint : Checkpoint)
    (metadata : NObj) (_new_versions : List (String × String)) (now : String) :
    Except String (CosmosDB × Configurable) :=
  match config with
  | none => .error "Failed to save checkpoint: AssertionError"
  | some c =>
  match c.thread_id with
  | none => .error "Failed to save checkpoint: KeyError checkpoint_ns"
  | some thread_id =>
  match c.checkpoint_ns with
  | none => .error "Failed to save checkpoint: KeyError checkpoint_ns"
  | some checkpoint_ns =>
  let checkpoint_id := checkpoint.id
  let doc : CheckpointDoc :=
    { docId := thread_id ++ "_" ++ checkpoint_ns ++ "_" ++ checkpoint_id
      parent_checkpoint_id := c.checkpoint_id
      type := "json"
      checkpoint := checkpoint
      metadata := metadata
      thread_id := thread_id
      checkpoint_ns := checkpoint_ns
      checkpoint_id := checkpoint_id }
  let db1 := { db with checkpoints := upsertCheckpointDoc doc db.checkpoints }
  match update_conversation_document db1 c checkpoint metadata now with
  | .error e => .error ("Failed to save checkpoint: " ++ e)
  | .ok db2 => .ok (db2, ⟨some thread_id, some checkpoint_ns, some checkpoint_id, none⟩)

/-- Document id of a pending write:
`f"{thread_id}_{checkpoint_ns}_{checkpoint_id}_{task_id}_{idx}"`. -/
def writeDocId (thread_id checkpoint_ns checkpoint_id task_id : String) (idx : Nat) : String :=
  thread_id ++ "_" ++ checkpoint_ns ++ "_" ++ checkpoint_id ++ "_" ++ task_id
    ++ "_" ++ toString idx

/-- The pending-write document built for one `(channel, value)` pair from the
`(type, data)` result of `dumps_typed` (utils.py, lines 590-600). -/
def writeDocFor (thread_id checkpoint_ns checkpoint_id task_id : String) (idx : Nat)
    (channel : String) (tv : String × WriteValue) : WriteDoc :=
  { docId := writeDocId thread_id checkpoint_ns checkpoint_id task_id idx
    thread_id := thread_id
    checkpoint_ns := checkpoint_ns
    checkpoint_id := checkpoint_id
    task_id := task_id
    idx := idx
    channel := channel
    type := tv.1
    value := tv.2 }

/-- The per-write loop of `aput_writes` (utils.py, lines 587-605): each
`(channel, value)` pair is enumerated from position 0; a value the typed
serializer rejects is logged and skipped; the remaining writes are still
upserted. -/
def put_writes_loop (thread_id checkpoint_ns checkpoint_id task_id : String) :
    List (Nat × String × WriteValue) → List WriteDoc → List WriteDoc
  | [], docs => docs
  | (idx, channel, value) :: rest, docs =>
      match dumps_typed value with
      | .error _ =>
          put_writes_loop thread_id checkpoint_ns checkpoint_id task_id rest docs
      | .ok tv =>
          put_writes_loop thread_id checkpoint_ns checkpoint_id task_id rest
            (upsertWriteDoc
              (writeDocFor thread_id checkpoint_ns checkpoint_id task_id idx channel tv)
              docs)

/-- Model of `aput_writes` (utils.py, lines 567-607): one pending-write
document per `(channel, value)` pair, indexed by position within this call;
a missing `configurable`, `thread_id`, `checkpoint_ns` or `checkpoint_id` key
raises the batch-level `RuntimeError`. -/
def aput_writes (db : CosmosDB) (config : RunnableConfig)
    (writes : List (String × WriteValue)) (task_id : String) :
    Except String CosmosDB :=
  match config with
  | none => .error "Failed to store writes: AssertionError"
  | some c =>
  match c.thread_id, c.checkpoint_ns, c.checkpoint_id with
  | some thread_id, some checkpoint_ns, some checkpoint_id =>
      let docs := put_writes_loop thread_id checkpoint_ns checkpoint_id task_id
        writes.enum db.writes
      .ok { db with writes := docs }
  | _, _, _ => .error "Failed to store writes: KeyError"

/-! ### Conversation directory operations -/

/-- Python string slice plus ellipsis from `get_conversations_by_user`:
`content[:100] + "..." if len(content) > 100 else content`, in the case
where `content` is a string. -/
def pyTruncate100 (s : String) : String :=
  if s.data.length > 100 then String.mk (s.data.take 100) ++ "..." else s

/-- Python `len` of a stored dict (number of keys). -/
def SObj.length : SObj → Nat
  | .nil => 0
  | .cons _ _ tl => 1 + SObj.length tl

/-- The preview-content expression of `get_conversations_by_user`
(utils.py, line 677): `content[:100] + "..." if len(content) > 100 else
content`.  A string is truncated with an ellipsis.  `len(content)` raises
`TypeError` on unsized values (numbers, booleans, None); for a stored list
or dict of more than 100 elements the slice followed by string
concatenation raises `TypeError` as well; sized non-string values of at
most 100 elements pass through unchanged. -/
def previewContent : SVal → Except String SVal
  | .s str => .ok (.s (pyTruncate100 str))
  | .arr xs =>
      if SArr.length xs > 100
      then .error "TypeError: can only concatenate list to list"
      else .ok (.arr xs)
  | .obj kvs =>
      if SObj.length kvs > 100
      then .error "TypeError: unhashable type: slice"
      else .ok (.obj kvs)
  | .i _ => .error "TypeError: object of type int has no len"
  | .f _ => .error "TypeError: object of type float has no len"
  | .b _ => .error "TypeError: object of type bool has no len"
  | .null => .error "TypeError: object of type NoneType has no len"

/-- The `first_message_preview` record of a conversation summary. -/
structure FirstMessagePreview where
  role : SVal
  content : SVal
  timestamp : String

/-- One entry of the `get_conversations_by_user` result.  `last_updated`
keeps the stored ISO-8601 string (the source parses it back through
`datetime.fromisoformat`, modelled as the identity on the stored text). -/
structure ConversationSummary where
  thread_id : String
  user_id : String
  last_updated : String
  message_count : Nat
  first_message_preview : Option FirstMessagePreview

/-- Summary of one conversation document (utils.py, lines 664-687):
`message_count` is the length of the stored `messages` when it is a list and
0 otherwise; the preview exists when the first stored message is a dict, and
a `TypeError` raised by its content expression propagates (the method has no
try/except). -/
def summarizeConversationDoc (doc : ConversationDoc) : Except String ConversationSummary :=
  match doc.messages with
  | .arr (.cons (.obj kvs) xs) =>
      match previewContent ((kvs.find? "content").getD (.s "")) with
      | .error e => .error e
      | .ok pc =>
          .ok { thread_id := doc.id
                user_id := doc.userId
                last_updated := doc.lastUpdated
                message_count := SArr.length (.cons (.obj kvs) xs)
                first_message_preview :=
                  some { role := (kvs.find? "type").getD (.s "")
                         content := pc
                         timestamp := doc.lastUpdated } }
  | other =>
      .ok { thread_id := doc.id
            user_id := doc.userId
            last_updated := doc.lastUpdated
            message_count :=
              match other with
              | .arr xs => xs.length
              | _ => 0
            first_message_preview := none }

/-- The result-building loop of `get_conversations_by_user`: summaries are
accumulated in order; an exception raised while summarizing one document
aborts the whole listing. -/
def summarizeConversationDocs : List ConversationDoc → Except String (List ConversationSummary)
  | [] => .ok []
  | doc :: rest =>
      match summarizeConversationDoc doc with
      | .error e => .error e
      | .ok s =>
          match summarizeConversationDocs rest with
          | .error e => .error e
          | .ok ss => .ok (s :: ss)

/-- Model of `get_conversations_by_user` (utils.py, lines 654-689): the
user's conversation documents ordered by `lastUpdated` descending, truncated
to `limit`, summarized; a `TypeError` from a preview computation propagates
to the caller. -/
def get_conversations_by_user (db : CosmosDB) (user_id : String) (limit : Nat) :
    Except String (List ConversationSummary) :=
  let docs := sortDescBy (fun d => d.lastUpdated)
    (db.conversations.filter (fun d => d.userId = user_id))
  summarizeConversationDocs (docs.take limit)

/-- Model of `get_or_create_user_conversation` (utils.py, lines 691-703):
returns the id of the most recently updated conversation document of the
user when one exists, else the freshly generated GUID (`str(uuid.uuid4())`,
modelled as the explicitly supplied `freshThreadId`).  No document is created
in either case. -/
def get_or_create_user_conversation (db : CosmosDB) (user_id : String)
    (freshThreadId : String) : String :=
  match sortDescBy (fun d => d.lastUpdated)
      (db.conversations.filter (fun d => d.userId = user_id)) with
  | [] => freshThreadId
  | doc :: _ => doc.id

/-- Cosmos `delete_item(item=convId, partition_key=userId)` against the
conversations container. -/
def deleteConversationItem (db : CosmosDB) (convId userId : String) : CosmosDB :=
  { db with conversations :=
      db.conversations.filter (fun d => !(d.id = convId && d.userId = userId)) }

/-- Model of `cleanup_old_conversations` (utils.py, lines 705-718): the
user's documents are queried ordered by `lastUpdated` descending; with at
most one document nothing happens; otherwise every document but the first is
deleted. -/
def cleanup_old_conversations (db : CosmosDB) (user_id : String) : CosmosDB :=
  let conversations := sortDescBy (fun d => d.lastUpdated)
    (db.conversations.filter (fun d => d.userId = user_id))
  if conversations.length ≤ 1 then db
  else
    (conversations.drop 1).foldl
      (fun acc conv => deleteConversationItem acc conv.id conv.userId) db

/-- Result of the pending-writes query of `delete_conversation` (utils.py,
line 742): the query text references `@thread_id` but `query_items` is called
without its `parameters` list, so the comparison against the undefined
parameter matches no document.  (Under a client that instead rejects the
malformed query, the surrounding `except` would return `False` after the
conversation and checkpoint deletions already happened; under neither
behavior are the pending writes deleted.) -/
def queryWritesUnparameterized (_docs : List WriteDoc) : List WriteDoc := []

/-- Model of `delete_conversation` (utils.py, lines 720-749): deletes the
conversation document when one exists, deletes the thread's checkpoints,
issues the unparameterized pending-writes query, and returns `True`; `False`
is returned only by the `except` clause on a storage error. -/
def delete_conversation (db : CosmosDB) (thread_id : String) : Bool × CosmosDB :=
  let conversations := db.conversations.filter (fun d => d.id = thread_id)
  let db1 :=
    match conversations with
    | [] => db
    | conv :: _ => deleteConversationItem db thread_id conv.userId
  let checkpoints := db1.checkpoints.filter (fun d => d.thread_id = thread_id)
  let db2 := checkpoints.foldl
    (fun acc ck =>
      { acc with checkpoints :=
          acc.checkpoints.filter (fun d => !(d.docId = ck.docId && d.thread_id = ck.thread_id)) })
    db1
  let writes := queryWritesUnparameterized db2.writes
  let db3 := writes.foldl
    (fun acc w =>
      { acc with writes :=
          acc.writes.filter (fun d => !(d.docId = w.docId && d.thread_id = w.thread_id)) })
    db2
  (true, db3)

/-! ### Claim C10: missing checkpoint_ns key -/

/-- Claim C10 (confirmed): with a configurable lacking the `checkpoint_ns`
key, `aput` and `aput_writes` raise (the `RuntimeError` of their except
clauses), while `aget_tuple` and `alist` behave exactly as with
`checkpoint_ns` set to the default empty string: the namespace default
applies only on the read paths. -/
theorem missing_checkpoint_ns_policy (db : CosmosDB) (c : Configurable)
    (hns : c.checkpoint_ns = none) :
    (∀ checkpoint metadata nv now,
      ∃ e, aput db (some c) checkpoint metadata nv now = .error e) ∧
    (∀ writes task_id,
      ∃ e, aput_writes db (some c) writes task_id = .error e) ∧
    (∀ health, aget_tuple db (some c) health =
      aget_tuple db (some { c with checkpoint_ns := some "" }) health) ∧
    (∀ filter before limit, alist db (some (some c)) filter before limit =
      alist db (some (some { c with checkpoint_ns := some "" })) filter before limit) := by
  obtain ⟨ht, hn, hc, hu⟩ := c
  simp only at hns
  subst hns
  refine ⟨?_, ?_, ?_, ?_⟩
  · intro checkpoint metadata nv now
    cases ht <;> exact ⟨_, rfl⟩
  · intro writes task_id
    cases ht <;> cases hc <;> exact ⟨_, rfl⟩
  · intro health
    cases health <;> cases ht <;> rfl
  · intro filter before limit
    cases ht <;> rfl

/-- Witness for C10 at a concrete configurable without `checkpoint_ns`. -/
theorem missing_checkpoint_ns_policy_witness :
    (∃ e, aput ⟨[], [], []⟩ (some ⟨some "t1", none, none, none⟩)
      ⟨"c1", []⟩ .nil [] "2024-01-01T00:00:00" = .error e) ∧
    (∃ e, aput_writes ⟨[], [], []⟩ (some ⟨some "t1", none, some "c1", none⟩)
      [("ch", .serializable "v")] "task" = .error e) ∧
    aget_tuple ⟨[], [], []⟩ (some ⟨some "t1", none, none, none⟩) .ok =
      aget_tuple ⟨[], [], []⟩ (some ⟨some "t1", some "", none, none⟩) .ok :=
  ⟨(missing_checkpoint_ns_policy ⟨[], [], []⟩ ⟨some "t1", none, none, none⟩ rfl).1
      ⟨"c1", []⟩ .nil [] "2024-01-01T00:00:00",
   (missing_checkpoint_ns_policy ⟨[], [], []⟩ ⟨some "t1", none, some "c1", none⟩ rfl).2.1
      [("ch", .serializable "v")] "task",
   (missing_checkpoint_ns_policy ⟨[], [], []⟩ ⟨some "t1", none, none, none⟩ rfl).2.2.1 .ok⟩

/-! ### Claim C9: aput without a user identity -/

/-- Claim C9 (confirmed): an `aput` whose config carries no `user_id` (absent
or empty) skips the conversation-directory update entirely — the
conversations container is untouched — while the checkpoint document is still
upserted and the updated config is returned normally. -/
theorem aput_without_user_id (db : CosmosDB) (c : Configurable)
    (thread_id checkpoint_ns : String)
    (ht : c.thread_id = some thread_id) (hns : c.checkpoint_ns = some checkpoint_ns)
    (hu : c.user_id = none ∨ c.user_id = some "")
    (checkpoint : Checkpoint) (metadata : NObj) (nv : List (String × String))
    (now : String) :
    ∃ db', aput db (some c) checkpoint metadata nv now =
        .ok (db', ⟨some thread_id, some checkpoint_ns, some checkpoint.id, none⟩) ∧
      db'.conversations = db.conversations ∧
      db'.writes = db.writes ∧
      db'.checkpoints = upsertCheckpointDoc
        { docId := thread_id ++ "_" ++ checkpoint_ns ++ "_" ++ checkpoint.id
          parent_checkpoint_id := c.checkpoint_id
          type := "json"
          checkpoint := checkpoint
          metadata := metadata
          thread_id := thread_id
          checkpoint_ns := checkpoint_ns
          checkpoint_id := checkpoint.id } db.checkpoints := by
  obtain ⟨ht', hn', hc', hu'⟩ := c
  simp only at ht hns
  subst ht hns
  rcases hu with hu | hu <;> simp only at hu <;> subst hu <;>
    exact ⟨_, rfl, rfl, rfl, rfl⟩

/-- Witness for C9 at a concrete anonymous config. -/
theorem aput_without_user_id_witness :
    ∃ db', aput ⟨[], [], []⟩ (some ⟨some "t1", some "", none, none⟩)
        ⟨"c1", []⟩ .nil [] "2024-01-01T00:00:00" =
        .ok (db', ⟨some "t1", some "", some "c1", none⟩) ∧
      db'.conversations = [] ∧
      db'.writes = [] ∧
      db'.checkpoints = upsertCheckpointDoc
        { docId := "t1" ++ "_" ++ "" ++ "_" ++ "c1"
          parent_checkpoint_id := none
          type := "json"
          checkpoint := ⟨"c1", []⟩
          metadata := .nil
          thread_id := "t1"
          checkpoint_ns := ""
          checkpoint_id := "c1" } [] :=
  aput_without_user_id ⟨[], [], []⟩ ⟨some "t1", some "", none, none⟩ "t1" ""
    rfl rfl (Or.inl rfl) ⟨"c1", []⟩ .nil [] "2024-01-01T00:00:00"

/-! ### Injectivity of the decimal rendering used in document ids

Write-document ids embed the position index through `toString`; distinctness
of those ids for distinct indices underlies the per-pair persistence of
`aput_writes`. -/

/-- Base-10 valuation of a character list, inverse to decimal rendering on
its image. -/
def digitsVal (cs : List Char) : Nat :=
  cs.foldl (fun a c => a * 10 + (c.toNat - 48)) 0

theorem digitsVal_foldl (a : Nat) (l : List Char) :
    l.foldl (fun a c => a * 10 + (c.toNat - 48)) a = a * 10 ^ l.length + digitsVal l := by
  induction l generalizing a with
  | nil => simp [digitsVal]
  | cons c tl ih =>
      simp only [List.foldl_cons, List.length_cons, digitsVal]
      rw [ih (a * 10 + (c.toNat - 48)), ih (0 * 10 + (c.toNat - 48))]
      ring

theorem toDigitsCore_append (fuel : Nat) : ∀ (n : Nat) (ds : List Char),
    Nat.toDigitsCore 10 fuel n ds = Nat.toDigitsCore 10 fuel n [] ++ ds := by
  induction fuel with
  | zero => intro n ds; simp [Nat.toDigitsCore]
  | succ fuel ih =>
      intro n ds
      simp only [Nat.toDigitsCore]
      by_cases h : n / 10 = 0
      · simp [h]
      · simp only [if_neg h]
        rw [ih (n / 10) (Nat.digitChar (n % 10) :: ds),
            ih (n / 10) [Nat.digitChar (n % 10)]]
        simp

theorem digitChar_toNat_sub (d : Nat) (h : d < 10) :
    (Nat.digitChar d).toNat - 48 = d := by
  interval_cases d <;> rfl

theorem digitsVal_append_singleton (l : List Char) (c : Char) :
    digitsVal (l ++ [c]) = digitsVal l * 10 + (c.toNat - 48) := by
  simp [digitsVal, List.foldl_append]

theorem digitsVal_toDigitsCore (fuel : Nat) : ∀ n : Nat, n < 10 ^ fuel →
    digitsVal (Nat.toDigitsCore 10 fuel n []) = n := by
  induction fuel with
  | zero =>
      intro n h
      simp only [pow_zero, Nat.lt_one_iff] at h
      subst h
      simp [Nat.toDigitsCore, digitsVal]
  | succ fuel ih =>
      intro n h
      have h10 : n % 10 < 10 := Nat.mod_lt _ (by omega)
      simp only [Nat.toDigitsCore]
      by_cases hd : n / 10 = 0
      · simp only [if_pos hd]
        simp [digitsVal, digitChar_toNat_sub _ h10]
        omega
      · simp only [if_neg hd]
        rw [toDigitsCore_append]
        have hlt : n / 10 < 10 ^ fuel := by
          rw [pow_succ] at h
          omega
        have hpre := ih (n / 10) hlt
        rw [digitsVal_append_singleton, hpre, digitChar_toNat_sub _ h10]
        omega

theorem natRepr_injective (m n : Nat) (h : Nat.repr m = Nat.repr n) : m = n := by
  have hdata : (Nat.toDigits 10 m) = (Nat.toDigits 10 n) := by
    have := congrArg String.data h
    simpa [Nat.repr, List.asString] using this
  have hm : m < 10 ^ (m + 1) :=
    lt_of_lt_of_le (Nat.lt_pow_self (by omega) m)
      (Nat.pow_le_pow_right (by omega) (Nat.le_succ m))
  have hn : n < 10 ^ (n + 1) :=
    lt_of_lt_of_le (Nat.lt_pow_self (by omega) n)
      (Nat.pow_le_pow_right (by omega) (Nat.le_succ n))
  have hvm := digitsVal_toDigitsCore (m + 1) m hm
  have hvn := digitsVal_toDigitsCore (n + 1) n hn
  simp only [Nat.toDigits] at hdata
  rw [← hvm, ← hvn]
  rw [hdata]

theorem natToString_injective (m n : Nat) (h : toString m = toString n) : m = n :=
  natRepr_injective m n h

theorem string_append_left_cancel (a x y : String) (h : a ++ x = a ++ y) : x = y := by
  have hd := congrArg String.data h
  simp only [String.data_append] at hd
  have hxy := List.append_cancel_left hd
  cases x
  cases y
  simp only at hxy
  rw [hxy]

/-! ### Claim C7: per-write upserts and failure isolation in aput_writes -/

theorem writeDocId_inj (t n c k : String) (i j : Nat)
    (h : writeDocId t n c k i = writeDocId t n c k j) : i = j := by
  unfold writeDocId at h
  exact natToString_injective i j (string_append_left_cancel _ _ _ h)

theorem mem_upsertWriteDoc_self (doc : WriteDoc) (docs : List WriteDoc) :
    doc ∈ upsertWriteDoc doc docs := by
  unfold upsertWriteDoc
  split
  · next hany =>
      rcases List.any_eq_true.mp hany with ⟨d, hd, hcond⟩
      exact List.mem_map.mpr ⟨d, hd, by rw [if_pos hcond]⟩
  · exact List.mem_append_right _ (List.mem_singleton.mpr rfl)

theorem mem_upsertWriteDoc_of_ne (doc d : WriteDoc) (docs : List WriteDoc)
    (hd : d ∈ docs) (hne : d.docId ≠ doc.docId) : d ∈ upsertWriteDoc doc docs := by
  unfold upsertWriteDoc
  split
  · refine List.mem_map.mpr ⟨d, hd, ?_⟩
    rw [if_neg]
    simp only [Bool.and_eq_true, decide_eq_true_eq, not_and]
    intro hid
    exact absurd hid hne
  · exact List.mem_append_left _ hd

theorem mem_upsertWriteDoc_elim (doc d : WriteDoc) (docs : List WriteDoc)
    (hd : d ∈ upsertWriteDoc doc docs) : d = doc ∨ d ∈ docs := by
  unfold upsertWriteDoc at hd
  split at hd
  · rcases List.mem_map.mp hd with ⟨x, hx, hfx⟩
    by_cases hc : (x.docId = doc.docId && x.thread_id = doc.thread_id) = true
    · rw [if_pos hc] at hfx
      exact Or.inl hfx.symm
    · rw [if_neg hc] at hfx
      exact Or.inr (hfx ▸ hx)
  · rcases List.mem_append.mp hd with h | h
    · exact Or.inr h
    · exact Or.inl (List.mem_singleton.mp h)

theorem put_writes_loop_preserves (t n c k : String)
    (ws : List (Nat × String × WriteValue)) :
    ∀ (docs : List WriteDoc) (d : WriteDoc), d ∈ docs →
    (∀ p ∈ ws, d.docId ≠ writeDocId t n c k p.1) →
    d ∈ put_writes_loop t n c k ws docs := by
  induction ws with
  | nil => intro docs d hd _; exact hd
  | cons hd_pair rest ih =>
      intro docs d hd hfresh
      obtain ⟨i, channel, value⟩ := hd_pair
      cases value with
      | serializable p =>
          simp only [put_writes_loop, dumps_typed]
          refine ih _ d ?_ (fun q hq => hfresh q (List.mem_cons_of_mem _ hq))
          exact mem_upsertWriteDoc_of_ne _ d docs hd
            (hfresh (i, channel, .serializable p) (List.mem_cons_self _ _))
      | unserializable =>
          simp only [put_writes_loop, dumps_typed]
          exact ih docs d hd (fun q hq => hfresh q (List.mem_cons_of_mem _ hq))

theorem put_writes_loop_mem (t n c k : String)
    (ws : List (Nat × String × WriteValue)) :
    ∀ (docs : List WriteDoc) (idx : Nat) (channel payload : String),
    (idx, (channel, WriteValue.serializable payload)) ∈ ws →
    (ws.map Prod.fst).Nodup →
    writeDocFor t n c k idx channel ("json", .serializable payload) ∈
      put_writes_loop t n c k ws docs := by
  induction ws with
  | nil => intro docs idx channel payload hmem _; simp at hmem
  | cons hd_pair rest ih =>
      intro docs idx channel payload hmem hnd
      obtain ⟨i, ch, value⟩ := hd_pair
      rcases List.mem_cons.mp hmem with heq | htail
      · obtain ⟨rfl, rfl, rfl⟩ := Prod.mk.injEq .. ▸ (by
          injection heq with h1 h2
          injection h2 with h3 h4
          exact ⟨h1.symm, h3.symm, h4.symm⟩ :
            i = idx ∧ ch = channel ∧ value = WriteValue.serializable payload)
        simp only [put_writes_loop, dumps_typed]
        apply put_writes_loop_preserves
        · exact mem_upsertWriteDoc_self _ docs
        · intro q hq
          simp only [writeDocFor]
          intro hid
          have hq1 : q.1 = i := (writeDocId_inj t n c k i q.1 hid).symm
          have : q.1 ∈ rest.map Prod.fst := List.mem_map.mpr ⟨q, hq, rfl⟩
          rw [hq1] at this
          simp only [List.map_cons, List.nodup_cons] at hnd
          exact hnd.1 this
      · cases value with
        | serializable p =>
            simp only [put_writes_loop, dumps_typed]
            exact ih _ idx channel payload htail
              (by simp only [List.map_cons, List.nodup_cons] at hnd; exact hnd.2)
        | unserializable =>
            simp only [put_writes_loop, dumps_typed]
            exact ih docs idx channel payload htail
              (by simp only [List.map_cons, List.nodup_cons] at hnd; exact hnd.2)

theorem put_writes_loop_elim (t n c k : String)
    (ws : List (Nat × String × WriteValue)) :
    ∀ (docs : List WriteDoc) (d : WriteDoc),
    d ∈ put_writes_loop t n c k ws docs →
    d ∈ docs ∨ ∃ i channel payload,
      (i, (channel, WriteValue.serializable payload)) ∈ ws ∧
      d = writeDocFor t n c k i channel ("json", .serializable payload) := by
  induction ws with
  | nil => intro docs d hd; exact Or.inl hd
  | cons hd_pair rest ih =>
      intro docs d hd
      obtain ⟨i, ch, value⟩ := hd_pair
      cases value with
      | serializable p =>
          simp only [put_writes_loop, dumps_typed] at hd
          rcases ih _ d hd with hmem | ⟨j, ch2, p2, hj, rfl⟩
          · rcases mem_upsertWriteDoc_elim _ d docs hmem with rfl | hmem2
            · exact Or.inr ⟨i, ch, p, List.mem_cons_self _ _, rfl⟩
            · exact Or.inl hmem2
          · exact Or.inr ⟨j, ch2, p2, List.mem_cons_of_mem _ hj, rfl⟩
      | unserializable =>
          simp only [put_writes_loop, dumps_typed] at hd
          rcases ih docs d hd with hmem | ⟨j, ch2, p2, hj, rfl⟩
          · exact Or.inl hmem
          · exact Or.inr ⟨j, ch2, p2, List.mem_cons_of_mem _ hj, rfl⟩

/-- Claim C7 (confirmed): `aput_writes` upserts one pending-write document
per `(channel, value)` pair, keyed by (thread_id, checkpoint_ns,
checkpoint_id, task_id, position index); a pair whose value fails the typed
serializer is skipped while every other pair in the batch is still persisted
and nothing else enters the container; only a batch-level failure (missing
`configurable`/`thread_id`/`checkpoint_ns`/`checkpoint_id`) raises. -/
theorem aput_writes_batch_spec (db : CosmosDB)
    (writes : List (String × WriteValue)) (task_id : String) :
    (∀ (c : Configurable) (tid ns cid : String),
      c.thread_id = some tid → c.checkpoint_ns = some ns →
      c.checkpoint_id = some cid →
      ∃ db', aput_writes db (some c) writes task_id = .ok db' ∧
        db'.conversations = db.conversations ∧
        db'.checkpoints = db.checkpoints ∧
        (∀ idx channel payload,
          (idx, (channel, WriteValue.serializable payload)) ∈ writes.enum →
          writeDocFor tid ns cid task_id idx channel ("json", .serializable payload)
            ∈ db'.writes) ∧
        (∀ d ∈ db'.writes, d ∈ db.writes ∨ ∃ idx channel payload,
          (idx, (channel, WriteValue.serializable payload)) ∈ writes.enum ∧
          d = writeDocFor tid ns cid task_id idx channel ("json", .serializable payload))) ∧
    (∀ c : Configurable,
      c.thread_id = none ∨ c.checkpoint_ns = none ∨ c.checkpoint_id = none →
      ∃ e, aput_writes db (some c) writes task_id = .error e) ∧
    (∃ e, aput_writes db none writes task_id = .error e) := by
  refine ⟨?_, ?_, ⟨_, rfl⟩⟩
  · intro c tid ns cid ht hns hcid
    obtain ⟨ht', hn', hc', hu'⟩ := c
    simp only at ht hns hcid
    subst ht hns hcid
    refine ⟨_, rfl, rfl, rfl, ?_, ?_⟩
    · intro idx channel payload hmem
      exact put_writes_loop_mem tid ns cid task_id writes.enum db.writes
        idx channel payload hmem
        (by rw [List.enum_map_fst]; exact List.nodup_range _)
    · intro d hd
      exact put_writes_loop_elim tid ns cid task_id writes.enum db.writes d hd
  · intro c hmiss
    obtain ⟨ht', hn', hc', hu'⟩ := c
    rcases hmiss with h | h | h
    · simp only at h
      subst h
      cases hn' <;> cases hc' <;> exact ⟨_, rfl⟩
    · simp only at h
      subst h
      cases ht' <;> cases hc' <;> exact ⟨_, rfl⟩
    · simp only at h
      subst h
      cases ht' <;> cases hn' <;> exact ⟨_, rfl⟩

/-- Witness for C7: a batch with a serializable, an unserializable and a
further serializable pair persists the two good writes and skips the bad
one. -/
theorem aput_writes_batch_spec_witness :
    ∃ db', aput_writes ⟨[], [], []⟩
        (some ⟨some "t1", some "", some "c1", none⟩)
        [("ch0", .serializable "v0"), ("bad", .unserializable),
         ("ch2", .serializable "v2")] "task" = .ok db' ∧
      db'.conversations = [] ∧
      db'.checkpoints = [] ∧
      (∀ idx channel payload,
        (idx, (channel, WriteValue.serializable payload)) ∈
          ([("ch0", .serializable "v0"), ("bad", .unserializable),
            ("ch2", .serializable "v2")] :
              List (String × WriteValue)).enum →
        writeDocFor "t1" "" "c1" "task" idx channel ("json", .serializable payload)
          ∈ db'.writes) ∧
      (∀ d ∈ db'.writes, d ∈ ([] : List WriteDoc) ∨ ∃ idx channel payload,
        (idx, (channel, WriteValue.serializable payload)) ∈
          ([("ch0", .serializable "v0"), ("bad", .unserializable),
            ("ch2", .serializable "v2")] :
              List (String × WriteValue)).enum ∧
        d = writeDocFor "t1" "" "c1" "task" idx channel ("json", .serializable payload)) :=
  (aput_writes_batch_spec ⟨[], [], []⟩
    [("ch0", .serializable "v0"), ("bad", .unserializable),
     ("ch2", .serializable "v2")] "task").1
    ⟨some "t1", some "", some "c1", none⟩ "t1" "" "c1" rfl rfl rfl

/-! ### Claim C2: aget_tuple retrieval semantics -/

theorem aget_core_exact (db : CosmosDB) (tid ns cid : String) :
    (aget_tuple_core db tid ns (some cid) = none ↔
      ∀ d ∈ db.checkpoints,
        ¬(d.thread_id = tid ∧ d.checkpoint_ns = ns ∧ d.checkpoint_id = cid)) ∧
    (∀ t, aget_tuple_core db tid ns (some cid) = some t →
      t.config = ⟨some tid, some ns, some cid, none⟩ ∧
      ∃ d ∈ db.checkpoints, d.thread_id = tid ∧ d.checkpoint_ns = ns ∧
        d.checkpoint_id = cid ∧ t.checkpoint = d.checkpoint ∧
        t.metadata = d.metadata) := by
  simp only [aget_tuple_core]
  cases hres : db.checkpoints.filter (fun d =>
      d.thread_id = tid && d.checkpoint_ns = ns && d.checkpoint_id = cid) with
  | nil =>
      constructor
      · simp only [List.filter_eq_nil_iff, Bool.and_eq_true, decide_eq_true_eq] at hres
        constructor
        · intro _ d hd hprop
          exact hres d hd ⟨⟨hprop.1, hprop.2.1⟩, hprop.2.2⟩
        · intro _
          rfl
      · intro t ht
        exact absurd ht (by simp)
  | cons doc rest =>
      have hdoc : doc ∈ db.checkpoints ∧
          ((doc.thread_id = tid ∧ doc.checkpoint_ns = ns) ∧ doc.checkpoint_id = cid) := by
        have : doc ∈ db.checkpoints.filter (fun d =>
            d.thread_id = tid && d.checkpoint_ns = ns && d.checkpoint_id = cid) := by
          rw [hres]; exact List.mem_cons_self _ _
        simpa [List.mem_filter, Bool.and_eq_true, decide_eq_true_eq] using this
      constructor
      · constructor
        · intro h
          exact absurd h (by simp)
        · intro h
          exact absurd ⟨hdoc.2.1.1, hdoc.2.1.2, hdoc.2.2⟩ (h doc hdoc.1)
      · intro t ht
        injection ht with ht
        subst ht
        refine ⟨by rw [hdoc.2.2], doc, hdoc.1, hdoc.2.1.1, hdoc.2.1.2, hdoc.2.2, rfl, rfl⟩

theorem aget_core_latest (db : CosmosDB) (tid ns : String) :
    (aget_tuple_core db tid ns none = none ↔
      ∀ d ∈ db.checkpoints, ¬(d.thread_id = tid ∧ d.checkpoint_ns = ns)) ∧
    (∀ t, aget_tuple_core db tid ns none = some t →
      ∃ d ∈ db.checkpoints, d.thread_id = tid ∧ d.checkpoint_ns = ns ∧
        t.config = ⟨some tid, some ns, some d.checkpoint_id, none⟩ ∧
        t.checkpoint = d.checkpoint ∧ t.metadata = d.metadata ∧
        ∀ e ∈ db.checkpoints, e.thread_id = tid → e.checkpoint_ns = ns →
          e.checkpoint_id ≤ d.checkpoint_id) := by
  simp only [aget_tuple_core]
  cases hres : sortDescBy (fun d => d.checkpoint_id)
      (db.checkpoints.filter (fun d => d.thread_id = tid && d.checkpoint_ns = ns)) with
  | nil =>
      have hfil : db.checkpoints.filter
          (fun d => d.thread_id = tid && d.checkpoint_ns = ns) = [] :=
        (sortDescBy_eq_nil_iff _ _).mp hres
      simp only [List.filter_eq_nil_iff, Bool.and_eq_true, decide_eq_true_eq] at hfil
      constructor
      · constructor
        · intro _ d hd hprop
          exact hfil d hd hprop
        · intro _
          rfl
      · intro t ht
        exact absurd ht (by simp)
  | cons doc rest =>
      have hdocmem : doc ∈ db.checkpoints.filter
          (fun d => d.thread_id = tid && d.checkpoint_ns = ns) := by
        rw [← mem_sortDescBy (fun d => d.checkpoint_id), hres]
        exact List.mem_cons_self _ _
      have hdoc : doc ∈ db.checkpoints ∧ doc.thread_id = tid ∧ doc.checkpoint_ns = ns := by
        simpa [List.mem_filter, Bool.and_eq_true, decide_eq_true_eq] using hdocmem
      have hmax := sortDescBy_head_max (fun d => d.checkpoint_id) _ doc rest hres
      constructor
      · constructor
        · intro h
          exact absurd h (by simp)
        · intro h
          exact absurd ⟨hdoc.2.1, hdoc.2.2⟩ (h doc hdoc.1)
      · intro t ht
        injection ht with ht
        subst ht
        refine ⟨doc, hdoc.1, hdoc.2.1, hdoc.2.2, rfl, rfl, rfl, ?_⟩
        intro e he het hens
        exact hmax e (List.mem_filter.mpr
          ⟨he, by simp [het, hens]⟩)

/-- Claim C2 (confirmed): for a config naming a thread (namespace defaulting
to the empty string): with a checkpoint_id, `aget_tuple` returns exactly the
checkpoint with that id and `None` when absent; without one it returns the
checkpoint with the greatest checkpoint_id for that (thread, namespace) and
`None` when none exists; and a storage fault during retrieval yields `None`
rather than raising. -/
theorem aget_tuple_retrieval_spec (db : CosmosDB) (c : Configurable)
    (thread_id : String) (ht : c.thread_id = some thread_id) :
    (aget_tuple db (some c) .fault = none) ∧
    (∀ cid, truthyCheckpointId c = some cid →
      ((aget_tuple db (some c) .ok = none ↔
        ∀ d ∈ db.checkpoints,
          ¬(d.thread_id = thread_id ∧ d.checkpoint_ns = c.checkpoint_ns.getD "" ∧
            d.checkpoint_id = cid)) ∧
       (∀ t, aget_tuple db (some c) .ok = some t →
        t.config = ⟨some thread_id, some (c.checkpoint_ns.getD ""), some cid, none⟩ ∧
        ∃ d ∈ db.checkpoints, d.thread_id = thread_id ∧
          d.checkpoint_ns = c.checkpoint_ns.getD "" ∧ d.checkpoint_id = cid ∧
          t.checkpoint = d.checkpoint ∧ t.metadata = d.metadata))) ∧
    (truthyCheckpointId c = none →
      ((aget_tuple db (some c) .ok = none ↔
        ∀ d ∈ db.checkpoints,
          ¬(d.thread_id = thread_id ∧ d.checkpoint_ns = c.checkpoint_ns.getD "")) ∧
       (∀ t, aget_tuple db (some c) .ok = some t →
        ∃ d ∈ db.checkpoints, d.thread_id = thread_id ∧
          d.checkpoint_ns = c.checkpoint_ns.getD "" ∧
          t.config = ⟨some thread_id, some (c.checkpoint_ns.getD ""), some d.checkpoint_id, none⟩ ∧
          t.checkpoint = d.checkpoint ∧ t.metadata = d.metadata ∧
          ∀ e ∈ db.checkpoints, e.thread_id = thread_id →
            e.checkpoint_ns = c.checkpoint_ns.getD "" →
            e.checkpoint_id ≤ d.checkpoint_id))) := by
  obtain ⟨ht', hn, hcid, hu⟩ := c
  simp only at ht
  subst ht
  refine ⟨rfl, ?_, ?_⟩
  · intro cid hq
    have hred : aget_tuple db (some ⟨some thread_id, hn, hcid, hu⟩) .ok =
        aget_tuple_core db thread_id (hn.getD "") (some cid) := by
      simp only [aget_tuple]
      rw [hq]
    rw [hred]
    exact aget_core_exact db thread_id (hn.getD "") cid
  · intro hq
    have hred : aget_tuple db (some ⟨some thread_id, hn, hcid, hu⟩) .ok =
        aget_tuple_core db thread_id (hn.getD "") none := by
      simp only [aget_tuple]
      rw [hq]
    rw [hred]
    exact aget_core_latest db thread_id (hn.getD "")

/-- Witness for C2 at a concrete database: exact lookup of `c1` returns it,
latest lookup returns `c2` (the greater id), and the fault path yields
`None`. -/
theorem aget_tuple_retrieval_spec_witness :
    aget_tuple
      ⟨[], [⟨"t1__c1", none, "json", ⟨"c1", []⟩, .nil, "t1", "", "c1"⟩,
            ⟨"t1__c2", some "c1", "json", ⟨"c2", []⟩, .nil, "t1", "", "c2"⟩], []⟩
      (some ⟨some "t1", none, none, none⟩) .fault = none ∧
    truthyCheckpointId ⟨some "t1", none, some "c1", none⟩ = some "c1" ∧
    ¬(aget_tuple
      ⟨[], [⟨"t1__c1", none, "json", ⟨"c1", []⟩, .nil, "t1", "", "c1"⟩,
            ⟨"t1__c2", some "c1", "json", ⟨"c2", []⟩, .nil, "t1", "", "c2"⟩], []⟩
      (some ⟨some "t1", none, some "c1", none⟩) .ok = none) :=
  ⟨(aget_tuple_retrieval_spec
      ⟨[], [⟨"t1__c1", none, "json", ⟨"c1", []⟩, .nil, "t1", "", "c1"⟩,
            ⟨"t1__c2", some "c1", "json", ⟨"c2", []⟩, .nil, "t1", "", "c2"⟩], []⟩
      ⟨some "t1", none, none, none⟩ "t1" rfl).1,
   rfl,
   fun h =>
     (((aget_tuple_retrieval_spec
        ⟨[], [⟨"t1__c1", none, "json", ⟨"c1", []⟩, .nil, "t1", "", "c1"⟩,
              ⟨"t1__c2", some "c1", "json", ⟨"c2", []⟩, .nil, "t1", "", "c2"⟩], []⟩
        ⟨some "t1", none, some "c1", none⟩ "t1" rfl).2.1 "c1" rfl).1.mp h)
       ⟨"t1__c1", none, "json", ⟨"c1", []⟩, .nil, "t1", "", "c1"⟩
       (List.mem_cons_self _ _) ⟨rfl, rfl, rfl⟩⟩

/-! ### Claim C3: parent-chain integrity of aput -/

/-- A checkpoint document written by `aput` carries the id
`f"{thread_id}_{checkpoint_ns}_{checkpoint_id}"`. -/
def CheckpointDoc.wf (d : CheckpointDoc) : Prop :=
  d.docId = d.thread_id ++ "_" ++ d.checkpoint_ns ++ "_" ++ d.checkpoint_id

theorem mem_upsertCheckpointDoc_self (doc : CheckpointDoc) (docs : List CheckpointDoc) :
    doc ∈ upsertCheckpointDoc doc docs := by
  unfold upsertCheckpointDoc
  split
  · next hany =>
      rcases List.any_eq_true.mp hany with ⟨d, hd, hcond⟩
      exact List.mem_map.mpr ⟨d, hd, by rw [if_pos hcond]⟩
  · exact List.mem_append_right _ (List.mem_singleton.mpr rfl)

theorem mem_upsertCheckpointDoc_elim (doc d : CheckpointDoc) (docs : List CheckpointDoc)
    (hd : d ∈ upsertCheckpointDoc doc docs) :
    d = doc ∨ (d ∈ docs ∧ ¬(d.docId = doc.docId ∧ d.thread_id = doc.thread_id)) := by
  unfold upsertCheckpointDoc at hd
  split at hd
  · rcases List.mem_map.mp hd with ⟨x, hx, hfx⟩
    by_cases hc : (x.docId = doc.docId && x.thread_id = doc.thread_id) = true
    · rw [if_pos hc] at hfx
      exact Or.inl hfx.symm
    · rw [if_neg hc] at hfx
      subst hfx
      simp only [Bool.and_eq_true, decide_eq_true_eq] at hc
      exact Or.inr ⟨hx, hc⟩
  · next hany =>
      rcases List.mem_append.mp hd with h | h
      · refine Or.inr ⟨h, ?_⟩
        intro hcond
        exact hany (List.any_eq_true.mpr ⟨d, h, by simp [hcond.1, hcond.2]⟩)
      · exact Or.inl (List.mem_singleton.mp h)

theorem upsertCheckpointDoc_triple_match (doc d : CheckpointDoc) (docs : List CheckpointDoc)
    (hwf : ∀ x ∈ docs, CheckpointDoc.wf x) (hdocwf : CheckpointDoc.wf doc)
    (hd : d ∈ upsertCheckpointDoc doc docs)
    (htr : d.thread_id = doc.thread_id ∧ d.checkpoint_ns = doc.checkpoint_ns ∧
      d.checkpoint_id = doc.checkpoint_id) : d = doc := by
  rcases mem_upsertCheckpointDoc_elim doc d docs hd with h | ⟨hmem, hne⟩
  · exact h
  · exfalso
    apply hne
    refine ⟨?_, htr.1⟩
    rw [hwf d hmem, hdocwf, htr.1, htr.2.1, htr.2.2]

theorem update_conversation_document_ok (db : CosmosDB) (c : Configurable)
    (checkpoint : Checkpoint) (metadata : NObj) (now : String)
    (thread_id : String) (ht : c.thread_id = some thread_id) :
    ∃ db2, update_conversation_document db c checkpoint metadata now = .ok db2 ∧
      db2.checkpoints = db.checkpoints ∧ db2.writes = db.writes := by
  obtain ⟨ht', hn, hc, hu⟩ := c
  simp only at ht
  subst ht
  cases hu with
  | none => exact ⟨db, rfl, rfl, rfl⟩
  | some u =>
      by_cases hu' : u = ""
      · subst hu'
        exact ⟨db, rfl, rfl, rfl⟩
      · refine ⟨{ db with
            conversations := upsertConversationDoc
                (conversationDocFor thread_id u checkpoint metadata now)
                db.conversations },
          ?_, rfl, rfl⟩
        simp only [update_conversation_document]
        rw [if_neg hu']

/-- Claim C3 (confirmed): when the incoming config carries checkpoint_id X
(non-empty), `aput` stores a checkpoint document with
`parent_checkpoint_id = X`, returns the config identifying the new
checkpoint, and a subsequent `aget_tuple` with that returned config yields a
tuple whose parent config resolves to X with thread and namespace
unchanged. -/
theorem aput_parent_chain (db : CosmosDB) (c : Configurable)
    (thread_id checkpoint_ns parentX : String)
    (ht : c.thread_id = some thread_id) (hns : c.checkpoint_ns = some checkpoint_ns)
    (hpx : c.checkpoint_id = some parentX) (hX : parentX ≠ "")
    (checkpoint : Checkpoint) (hid : checkpoint.id ≠ "")
    (metadata : NObj) (nv : List (String × String)) (now : String)
    (hwf : ∀ d ∈ db.checkpoints, CheckpointDoc.wf d) :
    ∃ db', aput db (some c) checkpoint metadata nv now =
        .ok (db', ⟨some thread_id, some checkpoint_ns, some checkpoint.id, none⟩) ∧
      (∃ d ∈ db'.checkpoints, d.thread_id = thread_id ∧
        d.checkpoint_ns = checkpoint_ns ∧ d.checkpoint_id = checkpoint.id ∧
        d.parent_checkpoint_id = some parentX) ∧
      ∃ t, aget_tuple db'
          (some ⟨some thread_id, some checkpoint_ns, some checkpoint.id, none⟩) .ok =
            some t ∧
        t.checkpoint = checkpoint ∧
        t.parent_config = some ⟨some thread_id, some checkpoint_ns, some parentX, none⟩ := by
  obtain ⟨ht', hn', hc', hu'⟩ := c
  simp only at ht hns hpx
  subst ht hns hpx
  set newdoc : CheckpointDoc :=
    { docId := thread_id ++ "_" ++ checkpoint_ns ++ "_" ++ checkpoint.id
      parent_checkpoint_id := some parentX
      type := "json"
      checkpoint := checkpoint
      metadata := metadata
      thread_id := thread_id
      checkpoint_ns := checkpoint_ns
      checkpoint_id := checkpoint.id } with hnewdoc
  obtain ⟨db2, hupd, hck, hw⟩ := update_conversation_document_ok
    { db with checkpoints := upsertCheckpointDoc newdoc db.checkpoints }
    ⟨some thread_id, some checkpoint_ns, some parentX, hu'⟩
    checkpoint metadata now thread_id rfl
  have hck' : db2.checkpoints = upsertCheckpointDoc newdoc db.checkpoints := hck
  refine ⟨db2, ?_, ?_, ?_⟩
  · simp only [aput]
    rw [hupd]
  · refine ⟨newdoc, ?_, rfl, rfl, rfl, rfl⟩
    rw [hck']
    exact mem_upsertCheckpointDoc_self newdoc db.checkpoints
  · have hnewwf : CheckpointDoc.wf newdoc := rfl
    have hred : aget_tuple db2
        (some ⟨some thread_id, some checkpoint_ns, some checkpoint.id, none⟩) .ok =
        aget_tuple_core db2 thread_id checkpoint_ns (some checkpoint.id) := by
      simp only [aget_tuple, truthyCheckpointId]
      rw [if_neg hid]
      rfl
    rw [hred]
    simp only [aget_tuple_core]
    cases hres : db2.checkpoints.filter (fun d =>
        d.thread_id = thread_id && d.checkpoint_ns = checkpoint_ns &&
        d.checkpoint_id = checkpoint.id) with
    | nil =>
        exfalso
        have : newdoc ∈ db2.checkpoints.filter (fun d =>
            d.thread_id = thread_id && d.checkpoint_ns = checkpoint_ns &&
            d.checkpoint_id = checkpoint.id) := by
          refine List.mem_filter.mpr ⟨?_, by simp⟩
          rw [hck']
          exact mem_upsertCheckpointDoc_self newdoc db.checkpoints
        rw [hres] at this
        simp at this
    | cons doc rest =>
        have hdocmem : doc ∈ db2.checkpoints ∧
            ((doc.thread_id = thread_id ∧ doc.checkpoint_ns = checkpoint_ns) ∧
              doc.checkpoint_id = checkpoint.id) := by
          have : doc ∈ db2.checkpoints.filter (fun d =>
              d.thread_id = thread_id && d.checkpoint_ns = checkpoint_ns &&
              d.checkpoint_id = checkpoint.id) := by
            rw [hres]
            exact List.mem_cons_self _ _
          simpa [List.mem_filter, Bool.and_eq_true, decide_eq_true_eq] using this
        have hdoceq : doc = newdoc := by
          apply upsertCheckpointDoc_triple_match newdoc doc db.checkpoints hwf hnewwf
          · rw [← hck']; exact hdocmem.1
          · exact ⟨hdocmem.2.1.1, hdocmem.2.1.2, hdocmem.2.2⟩
        subst hdoceq
        refine ⟨_, rfl, rfl, ?_⟩
        simp only [hnewdoc]
        rw [if_neg hX]

/-- Witness for C3: putting checkpoint `c2` with parent `c1` on a store
already holding `c1`. -/
theorem aput_parent_chain_witness :
    ∃ db', aput ⟨[], [⟨"t1__c1", none, "json", ⟨"c1", []⟩, .nil, "t1", "", "c1"⟩], []⟩
        (some ⟨some "t1", some "", some "c1", some "alice"⟩)
        ⟨"c2", []⟩ .nil [] "2024-01-01T00:00:00" =
        .ok (db', ⟨some "t1", some "", some "c2", none⟩) ∧
      (∃ d ∈ db'.checkpoints, d.thread_id = "t1" ∧
        d.checkpoint_ns = "" ∧ d.checkpoint_id = "c2" ∧
        d.parent_checkpoint_id = some "c1") ∧
      ∃ t, aget_tuple db' (some ⟨some "t1", some "", some "c2", none⟩) .ok = some t ∧
        t.checkpoint = ⟨"c2", []⟩ ∧
        t.parent_config = some ⟨some "t1", some "", some "c1", none⟩ :=
  aput_parent_chain ⟨[], [⟨"t1__c1", none, "json", ⟨"c1", []⟩, .nil, "t1", "", "c1"⟩], []⟩
    ⟨some "t1", some "", some "c1", some "alice"⟩ "t1" "" "c1" rfl rfl rfl
    (by decide) ⟨"c2", []⟩ (by decide) .nil [] "2024-01-01T00:00:00"
    (by
      intro d hd
      simp only [List.mem_singleton] at hd
      subst hd
      rfl)

/-! ### Claim C6: pending writes of one task across calls -/

/-- Counterexample to C6 as stated: two `aput_writes` calls for the same
task_id do not produce pending writes at indices 0 and 1 — `enumerate`
restarts at 0 on every call, so the second call's write reuses index 0, its
document id collides with the first call's, and the upsert overwrites it:
after both calls exactly one pending-write document remains (the second
value), and `aget_tuple` on the owning checkpoint returns that single write
only. -/
theorem aput_writes_two_calls_counterexample :
    aput_writes ⟨[], [⟨"t1__c1", none, "json", ⟨"c1", []⟩, .nil, "t1", "", "c1"⟩], []⟩
        (some ⟨some "t1", some "", some "c1", none⟩)
        [("ch0", .serializable "v0")] "task" =
      .ok ⟨[], [⟨"t1__c1", none, "json", ⟨"c1", []⟩, .nil, "t1", "", "c1"⟩],
        [writeDocFor "t1" "" "c1" "task" 0 "ch0" ("json", .serializable "v0")]⟩ ∧
    aput_writes ⟨[], [⟨"t1__c1", none, "json", ⟨"c1", []⟩, .nil, "t1", "", "c1"⟩],
        [writeDocFor "t1" "" "c1" "task" 0 "ch0" ("json", .serializable "v0")]⟩
        (some ⟨some "t1", some "", some "c1", none⟩)
        [("ch1", .serializable "v1")] "task" =
      .ok ⟨[], [⟨"t1__c1", none, "json", ⟨"c1", []⟩, .nil, "t1", "", "c1"⟩],
        [writeDocFor "t1" "" "c1" "task" 0 "ch1" ("json", .serializable "v1")]⟩ ∧
    aget_tuple ⟨[], [⟨"t1__c1", none, "json", ⟨"c1", []⟩, .nil, "t1", "", "c1"⟩],
        [writeDocFor "t1" "" "c1" "task" 0 "ch1" ("json", .serializable "v1")]⟩
        (some ⟨some "t1", some "", some "c1", none⟩) .ok =
      some ⟨⟨some "t1", some "", some "c1", none⟩, ⟨"c1", []⟩, .nil, none,
        some [("task", "ch1", .serializable "v1")]⟩ :=
  ⟨rfl, rfl, rfl⟩

/-- Claim C6 (corrected): within a single `aput_writes` call, two
`(channel, value)` pairs persist as distinct documents at indices 0 and 1 and
a subsequent `aget_tuple` on the owning checkpoint returns both pending
writes in ascending index order; but a second `aput_writes` call for the same
task_id restarts indexing at 0 and overwrites the first call's document
rather than adding a second one. -/
theorem aput_writes_same_task_amended (db : CosmosDB) (c : Configurable)
    (tid ns cid task ch0 ch1 v0 v1 : String)
    (ht : c.thread_id = some tid) (hns : c.checkpoint_ns = some ns)
    (hcid : c.checkpoint_id = some cid) (hcidne : cid ≠ "")
    (hw : db.writes = [])
    (d0 : CheckpointDoc)
    (hfil : db.checkpoints.filter (fun d =>
      d.thread_id = tid && d.checkpoint_ns = ns && d.checkpoint_id = cid) = [d0]) :
    (∃ db', aput_writes db (some c)
        [(ch0, .serializable v0), (ch1, .serializable v1)] task = .ok db' ∧
      db'.writes = [writeDocFor tid ns cid task 0 ch0 ("json", .serializable v0),
        writeDocFor tid ns cid task 1 ch1 ("json", .serializable v1)] ∧
      ∃ t, aget_tuple db' (some c) .ok = some t ∧
        t.pending_writes = some [(task, ch0, WriteValue.serializable v0),
          (task, ch1, WriteValue.serializable v1)]) ∧
    (∃ db1 db2, aput_writes db (some c) [(ch0, .serializable v0)] task = .ok db1 ∧
      db1.writes = [writeDocFor tid ns cid task 0 ch0 ("json", .serializable v0)] ∧
      aput_writes db1 (some c) [(ch1, .serializable v1)] task = .ok db2 ∧
      db2.writes = [writeDocFor tid ns cid task 0 ch1 ("json", .serializable v1)]) := by
  obtain ⟨ht', hn', hc', hu'⟩ := c
  simp only at ht hns hcid
  subst ht hns hcid
  have hd0 : d0 ∈ db.checkpoints ∧
      ((d0.thread_id = tid ∧ d0.checkpoint_ns = ns) ∧ d0.checkpoint_id = cid) := by
    have : d0 ∈ db.checkpoints.filter (fun d =>
        d.thread_id = tid && d.checkpoint_ns = ns && d.checkpoint_id = cid) := by
      rw [hfil]
      exact List.mem_cons_self _ _
    simpa [List.mem_filter, Bool.and_eq_true, decide_eq_true_eq] using this
  have hne01 : ¬(writeDocId tid ns cid task 1 = writeDocId tid ns cid task 0) :=
    fun h => absurd (writeDocId_inj tid ns cid task 1 0 h) (by omega)
  have hne10 : ¬(writeDocId tid ns cid task 0 = writeDocId tid ns cid task 1) :=
    fun h => absurd (writeDocId_inj tid ns cid task 0 1 h) (by omega)
  have hupA : put_writes_loop tid ns cid task
      ([(ch0, WriteValue.serializable v0), (ch1, WriteValue.serializable v1)]).enum
      db.writes =
      [writeDocFor tid ns cid task 0 ch0 ("json", .serializable v0),
       writeDocFor tid ns cid task 1 ch1 ("json", .serializable v1)] := by
    rw [hw]
    simp only [List.enum, List.enumFrom, put_writes_loop, dumps_typed]
    simp [upsertWriteDoc, writeDocFor, hne01, hne10]
  constructor
  · refine ⟨{ db with writes :=
        [writeDocFor tid ns cid task 0 ch0 ("json", .serializable v0),
         writeDocFor tid ns cid task 1 ch1 ("json", .serializable v1)] }, ?_, rfl, ?_⟩
    · simp only [aput_writes]
      rw [hupA]
    · have hred : aget_tuple
          { db with writes :=
            [writeDocFor tid ns cid task 0 ch0 ("json", .serializable v0),
             writeDocFor tid ns cid task 1 ch1 ("json", .serializable v1)] }
          (some ⟨some tid, some ns, some cid, hu'⟩) .ok =
          aget_tuple_core
            { db with writes :=
              [writeDocFor tid ns cid task 0 ch0 ("json", .serializable v0),
               writeDocFor tid ns cid task 1 ch1 ("json", .serializable v1)] }
            tid ns (some cid) := by
        simp only [aget_tuple, truthyCheckpointId]
        rw [if_neg hcidne]
        rfl
      rw [hred]
      simp only [aget_tuple_core]
      have hfil' : ({ db with writes :=
          [writeDocFor tid ns cid task 0 ch0 ("json", .serializable v0),
           writeDocFor tid ns cid task 1 ch1 ("json", .serializable v1)] } :
            CosmosDB).checkpoints.filter (fun d =>
          d.thread_id = tid && d.checkpoint_ns = ns && d.checkpoint_id = cid) = [d0] :=
        hfil
      rw [hfil']
      refine ⟨_, rfl, ?_⟩
      simp [writeDocFor, hd0.2.2]
  · refine ⟨{ db with writes :=
        [writeDocFor tid ns cid task 0 ch0 ("json", .serializable v0)] },
      { db with writes :=
        [writeDocFor tid ns cid task 0 ch1 ("json", .serializable v1)] },
      ?_, rfl, ?_, rfl⟩
    · simp only [aput_writes]
      rw [hw]
      simp [List.enum, List.enumFrom, put_writes_loop, dumps_typed, upsertWriteDoc]
    · simp only [aput_writes]
      simp [List.enum, List.enumFrom, put_writes_loop, dumps_typed, upsertWriteDoc,
        writeDocFor]

/-- Witness for the amended C6 at a concrete store holding checkpoint `c1`. -/
theorem aput_writes_same_task_amended_witness :
    (∃ db', aput_writes ⟨[], [⟨"t1__c1", none, "json", ⟨"c1", []⟩, .nil, "t1", "", "c1"⟩], []⟩
        (some ⟨some "t1", some "", some "c1", none⟩)
        [("a", .serializable "x"), ("b", .serializable "y")] "task" = .ok db' ∧
      db'.writes = [writeDocFor "t1" "" "c1" "task" 0 "a" ("json", .serializable "x"),
        writeDocFor "t1" "" "c1" "task" 1 "b" ("json", .serializable "y")] ∧
      ∃ t, aget_tuple db' (some ⟨some "t1", some "", some "c1", none⟩) .ok = some t ∧
        t.pending_writes = some [("task", "a", WriteValue.serializable "x"),
          ("task", "b", WriteValue.serializable "y")]) ∧
    (∃ db1 db2, aput_writes
        ⟨[], [⟨"t1__c1", none, "json", ⟨"c1", []⟩, .nil, "t1", "", "c1"⟩], []⟩
        (some ⟨some "t1", some "", some "c1", none⟩)
        [("a", .serializable "x")] "task" = .ok db1 ∧
      db1.writes = [writeDocFor "t1" "" "c1" "task" 0 "a" ("json", .serializable "x")] ∧
      aput_writes db1 (some ⟨some "t1", some "", some "c1", none⟩)
        [("b", .serializable "y")] "task" = .ok db2 ∧
      db2.writes = [writeDocFor "t1" "" "c1" "task" 0 "b" ("json", .serializable "y")]) :=
  aput_writes_same_task_amended
    ⟨[], [⟨"t1__c1", none, "json", ⟨"c1", []⟩, .nil, "t1", "", "c1"⟩], []⟩
    ⟨some "t1", some "", some "c1", none⟩
    "t1" "" "c1" "task" "a" "b" "x" "y" rfl rfl rfl (by decide) rfl
    ⟨"t1__c1", none, "json", ⟨"c1", []⟩, .nil, "t1", "", "c1"⟩ rfl

/-! ### Claim C8: lazy thread creation -/

theorem serialize_arr_length (ms : NArr) :
    SArr.length (serialize_for_cosmosdb_arr ms) = NArr.length ms := by
  cases ms with
  | nil => rfl
  | cons x tl =>
      simp only [serialize_for_cosmosdb_arr, SArr.length, NArr.length]
      rw [serialize_arr_length tl]

/-- Claim C8 (confirmed): `get_or_create_user_conversation` returns the
existing (most recently updated) thread id when the user has a conversation
document, and otherwise returns the freshly generated id without creating any
document — so `get_conversations_by_user` immediately afterwards returns an
empty listing, and returns exactly one entry with `message_count >= 1` only
after the first checkpoint-driven conversation upsert for that thread (whose
first message is a chat message with string content, so the preview
computation does not raise). -/
theorem get_or_create_thread_lazy (db : CosmosDB) (u freshId : String) (hu : u ≠ "") :
    (∀ doc rest, sortDescBy (fun d => d.lastUpdated)
        (db.conversations.filter (fun d => d.userId = u)) = doc :: rest →
      get_or_create_user_conversation db u freshId = doc.id) ∧
    (db.conversations.filter (fun d => d.userId = u) = [] →
      get_or_create_user_conversation db u freshId = freshId ∧
      get_conversations_by_user db u 50 = .ok []) ∧
    (∀ (checkpoint : Checkpoint) (metadata : NObj) (now : String)
      (k : MsgKind) (ctext : String) (ak rm : SObj) (mid : Option String) (tl : NArr),
      db.conversations.filter (fun d => d.userId = u) = [] →
      checkpoint.channel_values.lookup "messages" =
        some (NVal.arr (.cons (.msg k (.s ctext) ak rm mid) tl)) →
      ∃ db', update_conversation_document db
          ⟨some freshId, none, none, some u⟩ checkpoint metadata now = .ok db' ∧
        ∃ s, get_conversations_by_user db' u 50 = .ok [s] ∧
          s.thread_id = freshId ∧ s.user_id = u ∧
          s.message_count = NArr.length (.cons (.msg k (.s ctext) ak rm mid) tl) ∧
          1 ≤ s.message_count) := by
  refine ⟨?_, ?_, ?_⟩
  · intro doc rest hsorted
    simp only [get_or_create_user_conversation]
    rw [hsorted]
  · intro hempty
    constructor
    · simp only [get_or_create_user_conversation]
      rw [hempty]
      rfl
    · simp only [get_conversations_by_user]
      rw [hempty]
      rfl
  · intro checkpoint metadata now k ctext ak rm mid tl hempty hlookup
    have hnone : ∀ d ∈ db.conversations, ¬(d.userId = u) := by
      simpa using List.filter_eq_nil_iff.mp hempty
    set newdoc := conversationDocFor freshId u checkpoint metadata now with hnewdoc
    have hany : (db.conversations.any (fun d =>
        d.id = newdoc.id && d.userId = newdoc.userId)) = false := by
      rw [List.any_eq_false]
      intro d hd
      simp only [Bool.and_eq_true, decide_eq_true_eq, not_and]
      intro _
      exact hnone d hd
    have hups : upsertConversationDoc newdoc db.conversations =
        db.conversations ++ [newdoc] := by
      unfold upsertConversationDoc
      rw [hany]
      simp
    have hmsgs : newdoc.messages =
        SVal.arr (.cons (.obj (.cons "_type" (.s (MsgKind.className k))
          (.cons "content" (.s ctext)
          (.cons "type" (.s (MsgKind.typeName k))
          (.cons "additional_kwargs" (.obj ak)
          (.cons "response_metadata" (.obj rm)
          (.cons "id" (encodeMsgId mid) .nil)))))))
          (serialize_for_cosmosdb_arr tl)) := by
      simp only [hnewdoc, conversationDocFor]
      rw [hlookup]
      rfl
    have hsum : summarizeConversationDoc newdoc = .ok
        { thread_id := freshId
          user_id := u
          last_updated := now
          message_count := 1 + SArr.length (serialize_for_cosmosdb_arr tl)
          first_message_preview := some
            { role := .s (MsgKind.typeName k)
              content := .s (pyTruncate100 ctext)
              timestamp := now } } := by
      simp only [summarizeConversationDoc]
      rw [hmsgs]
      rfl
    refine ⟨{ db with conversations := upsertConversationDoc newdoc db.conversations },
      ?_, ?_⟩
    · simp only [update_conversation_document]
      rw [if_neg hu]
    · have hone : List.filter (fun d => decide (d.userId = u)) [newdoc] = [newdoc] := by
        simp [hnewdoc, conversationDocFor]
      have hlist : get_conversations_by_user
          { db with conversations := upsertConversationDoc newdoc db.conversations }
          u 50 = summarizeConversationDocs [newdoc] := by
        simp only [get_conversations_by_user, hups]
        rw [List.filter_append, hempty, hone]
        rfl
      refine ⟨{ thread_id := freshId
                user_id := u
                last_updated := now
                message_count := 1 + SArr.length (serialize_for_cosmosdb_arr tl)
                first_message_preview := some
                  { role := .s (MsgKind.typeName k)
                    content := .s (pyTruncate100 ctext)
                    timestamp := now } }, ?_, rfl, rfl, ?_, ?_⟩
      · rw [hlist]
        simp only [summarizeConversationDocs]
        rw [hsum]
      · show 1 + SArr.length (serialize_for_cosmosdb_arr tl) =
          NArr.length (.cons (.msg k (.s ctext) ak rm mid) tl)
        rw [serialize_arr_length tl]
        simp [NArr.length]
      · show 1 ≤ 1 + SArr.length (serialize_for_cosmosdb_arr tl)
        omega

/-- Witness for C8: user `alice` (with only another user's document present)
gets the fresh id, sees an empty listing, and after one checkpoint-driven
upsert of a single human message sees exactly one conversation with one
message. -/
theorem get_or_create_thread_lazy_witness :
    (get_or_create_user_conversation
        ⟨[⟨"t-bob", "bob", "2024-01-01T00:00:00", .arr .nil, "c0", .obj .nil⟩], [], []⟩
        "alice" "f-123" = "f-123" ∧
      get_conversations_by_user
        ⟨[⟨"t-bob", "bob", "2024-01-01T00:00:00", .arr .nil, "c0", .obj .nil⟩], [], []⟩
        "alice" 50 = .ok []) ∧
    ∃ db', update_conversation_document
        ⟨[⟨"t-bob", "bob", "2024-01-01T00:00:00", .arr .nil, "c0", .obj .nil⟩], [], []⟩
        ⟨some "f-123", none, none, some "alice"⟩
        ⟨"c1", [("messages",
          NVal.arr (.cons (.msg .human (.s "Hi") .nil .nil none) .nil))]⟩
        .nil "2024-01-02T00:00:00" = .ok db' ∧
      ∃ s, get_conversations_by_user db' "alice" 50 = .ok [s] ∧
        s.thread_id = "f-123" ∧ s.user_id = "alice" ∧
        s.message_count = NArr.length (.cons (.msg .human (.s "Hi") .nil .nil none) .nil) ∧
        1 ≤ s.message_count :=
  ⟨(get_or_create_thread_lazy
      ⟨[⟨"t-bob", "bob", "2024-01-01T00:00:00", .arr .nil, "c0", .obj .nil⟩], [], []⟩
      "alice" "f-123" (by decide)).2.1 rfl,
   (get_or_create_thread_lazy
      ⟨[⟨"t-bob", "bob", "2024-01-01T00:00:00", .arr .nil, "c0", .obj .nil⟩], [], []⟩
      "alice" "f-123" (by decide)).2.2
     ⟨"c1", [("messages",
        NVal.arr (.cons (.msg .human (.s "Hi") .nil .nil none) .nil))]⟩
     .nil "2024-01-02T00:00:00" .human "Hi" .nil .nil none .nil
     rfl rfl⟩

/-! ### Claim C5: delete_conversation return semantics -/

/-- Claim C5 (code bug): evaluated at the failing inputs, the code returns
`True` when no conversation document exists for the thread (first conjunct,
empty store); and on a store where the conversation does exist it returns
`True` having deleted the conversation document and the checkpoint but NOT
the pending write, because the pending-writes query is issued without its
parameters (utils.py, line 742).  The HTTP layer (run.py) treats a `False`
return as 404 not-found, matching the spec; the implementation's `False` in
fact signals only a storage error. -/
theorem delete_conversation_divergence :
    delete_conversation ⟨[], [], []⟩ "t1" = (true, ⟨[], [], []⟩) ∧
    delete_conversation
      ⟨[⟨"t1", "alice", "2024-01-01T00:00:00", .arr .nil, "c1", .obj .nil⟩],
       [⟨"t1__c1", none, "json", ⟨"c1", []⟩, .nil, "t1", "", "c1"⟩],
       [writeDocFor "t1" "" "c1" "task" 0 "ch" ("json", .serializable "v")]⟩ "t1" =
      (true, ⟨[], [],
        [writeDocFor "t1" "" "c1" "task" 0 "ch" ("json", .serializable "v")]⟩) :=
  ⟨rfl, rfl⟩

/-! ### Claim C4: one conversation document per user -/

/-- The user's conversation documents, as queried by
`cleanup_old_conversations` before ordering. -/
def userDocs (db : CosmosDB) (u : String) : List ConversationDoc :=
  db.conversations.filter (fun d => d.userId = u)

/-- One step of the C4 scenario: a conversation-document upsert driven by a
checkpoint save (`upsert_from_checkpoint`), or a `reconcile_duplicates`
(`cleanup_old_conversations`) call. -/
inductive ConvOp where
  | save (thread_id : String) (checkpoint : Checkpoint) (metadata : NObj) (now : String)
  | reconcile

/-- The (thread_id, lastUpdated) keys of the save operations of a scenario. -/
def savesOf : List ConvOp → List (String × String)
  | [] => []
  | .save tid _ _ now :: rest => (tid, now) :: savesOf rest
  | .reconcile :: rest => savesOf rest

/-- State update of one conversation-document upsert. -/
def convUpsertState (db : CosmosDB) (doc : ConversationDoc) : CosmosDB :=
  { db with conversations := upsertConversationDoc doc db.conversations }

/-- Run a C4 scenario for user `u`.  A save performs exactly the
conversation-container upsert that `_update_conversation_document` performs
for a config carrying this thread and a non-empty `user_id`
(see `runConvOps_save_step`); a reconcile runs `cleanup_old_conversations`. -/
def runConvOps (u : String) (db : CosmosDB) : List ConvOp → CosmosDB
  | [] => db
  | .save tid ck md now :: rest =>
      runConvOps u (convUpsertState db (conversationDocFor tid u ck md now)) rest
  | .reconcile :: rest => runConvOps u (cleanup_old_conversations db u) rest

/-- A save step of `runConvOps` is the successful
`_update_conversation_document` path for an identified (non-empty) user. -/
theorem runConvOps_save_step (u : String) (db : CosmosDB) (tid : String)
    (ck : Checkpoint) (md : NObj) (now : String) (hu : u ≠ "") :
    update_conversation_document db ⟨some tid, none, none, some u⟩ ck md now =
      .ok (convUpsertState db (conversationDocFor tid u ck md now)) := by
  simp only [update_conversation_document, convUpsertState]
  rw [if_neg hu]

theorem foldl_deleteConversationItem (rs : List ConversationDoc) :
    ∀ db : CosmosDB,
    (rs.foldl (fun acc conv => deleteConversationItem acc conv.id conv.userId) db) =
    { db with conversations := db.conversations.filter (fun d =>
        !(rs.any (fun r => d.id = r.id && d.userId = r.userId))) } := by
  induction rs with
  | nil => intro db; simp
  | cons r rs ih =>
      intro db
      simp only [List.foldl_cons]
      rw [ih]
      simp only [deleteConversationItem, List.filter_filter]
      congr 1
      · apply List.filter_congr
        intro d _
        simp only [List.any_cons, Bool.not_or, Bool.and_comm]

theorem cleanup_result (u : String) (db : CosmosDB)
    (hnd : ((userDocs db u).map (fun d => d.id)).Nodup) :
    (userDocs db u = [] ∧ cleanup_old_conversations db u = db) ∨
    (∃ m, userDocs (cleanup_old_conversations db u) u = [m] ∧
      m ∈ userDocs db u ∧
      ∀ d ∈ userDocs db u, d.lastUpdated ≤ m.lastUpdated) := by
  cases hs : sortDescBy (fun d => d.lastUpdated)
      (db.conversations.filter (fun d => d.userId = u)) with
  | nil =>
      left
      have hempty : userDocs db u = [] := (sortDescBy_eq_nil_iff _ _).mp hs
      refine ⟨hempty, ?_⟩
      unfold cleanup_old_conversations
      rw [hs]
      simp
  | cons m rest =>
      cases rest with
      | nil =>
          have heq : cleanup_old_conversations db u = db := by
            unfold cleanup_old_conversations
            rw [hs]
            simp
          have hperm : List.Perm (userDocs db u) [m] := by
            have := sortDescBy_perm (fun d : ConversationDoc => d.lastUpdated)
              (db.conversations.filter (fun d => d.userId = u))
            rw [hs] at this
            exact this.symm
          have huser : userDocs db u = [m] := List.perm_singleton.mp hperm
          right
          refine ⟨m, ?_, ?_, ?_⟩
          · rw [heq, huser]
          · rw [huser]; exact List.mem_singleton.mpr rfl
          · intro d hd
            rw [huser] at hd
            rw [List.mem_singleton.mp hd]
      | cons r2 rest2 =>
          have hperm0 : List.Perm (userDocs db u) (m :: r2 :: rest2) := by
            have := sortDescBy_perm (fun d : ConversationDoc => d.lastUpdated)
              (db.conversations.filter (fun d => d.userId = u))
            rw [hs] at this
            exact this.symm
          have hndperm : ((m :: r2 :: rest2).map (fun d => d.id)).Nodup :=
            ((hperm0.map (fun d => d.id)).nodup_iff).mp hnd
          have heq : cleanup_old_conversations db u =
              { db with conversations := db.conversations.filter (fun d =>
                  !((r2 :: rest2).any (fun r => d.id = r.id && d.userId = r.userId))) } := by
            unfold cleanup_old_conversations
            rw [hs]
            rw [if_neg (by simp)]
            rw [show (m :: r2 :: rest2).drop 1 = r2 :: rest2 from rfl]
            exact foldl_deleteConversationItem _ db
          have hmkeep : (!((r2 :: rest2).any
              (fun r => m.id = r.id && m.userId = r.userId))) = true := by
            simp only [Bool.not_eq_true', List.any_eq_false]
            intro r hr
            simp only [Bool.and_eq_true, decide_eq_true_eq, not_and]
            intro hid _
            exact (List.nodup_cons.mp hndperm).1
              (List.mem_map.mpr ⟨r, hr, hid.symm⟩)
          have hrdrop : (r2 :: rest2).filter (fun d =>
              !((r2 :: rest2).any (fun r => d.id = r.id && d.userId = r.userId))) = [] := by
            rw [List.filter_eq_nil_iff]
            intro r hr
            simp only [Bool.not_eq_true, Bool.not_eq_false', List.any_eq_true]
            exact ⟨r, hr, by simp⟩
          have huser : userDocs (cleanup_old_conversations db u) u =
              (userDocs db u).filter (fun d =>
                !((r2 :: rest2).any (fun r => d.id = r.id && d.userId = r.userId))) := by
            rw [heq]
            simp only [userDocs]
            rw [List.filter_filter, List.filter_filter]
            apply List.filter_congr
            intro d _
            exact Bool.and_comm _ _
          have hfilperm : List.Perm
              ((userDocs db u).filter (fun d =>
                !((r2 :: rest2).any (fun r => d.id = r.id && d.userId = r.userId))))
              ((m :: r2 :: rest2).filter (fun d =>
                !((r2 :: rest2).any (fun r => d.id = r.id && d.userId = r.userId)))) :=
            hperm0.filter _
          have hfe : (m :: r2 :: rest2).filter (fun d =>
              !((r2 :: rest2).any (fun r => d.id = r.id && d.userId = r.userId))) = [m] := by
            rw [List.filter_cons]
            rw [if_pos hmkeep, hrdrop]
          right
          refine ⟨m, ?_, ?_, ?_⟩
          · rw [huser]
            exact List.perm_singleton.mp (hfe ▸ hfilperm)
          · exact (hperm0.mem_iff).mpr (List.mem_cons_self _ _)
          · intro d hd
            exact sortDescBy_head_max (fun d => d.lastUpdated) _ m (r2 :: rest2) hs d hd

/-- Invariant maintained over a C4 scenario: every conversation document of
`u` originates in a processed save, the document ids for `u` are distinct,
and once some save was processed a most-recently-updated one is present. -/
def ConvInv (u : String) (saves : List (String × String)) (db : CosmosDB) : Prop :=
  (∀ d ∈ userDocs db u, (d.id, d.lastUpdated) ∈ saves) ∧
  ((userDocs db u).map (fun d => d.id)).Nodup ∧
  (saves ≠ [] → ∃ d ∈ userDocs db u, ∀ s ∈ saves, s.2 ≤ d.lastUpdated)

theorem convInv_upsert (u : String) (saves : List (String × String)) (db : CosmosDB)
    (tid : String) (ck : Checkpoint) (md : NObj) (now : String)
    (hinv : ConvInv u saves db)
    (hfresh : tid ∉ saves.map Prod.fst) :
    ConvInv u (saves ++ [(tid, now)])
      (convUpsertState db (conversationDocFor tid u ck md now)) := by
  obtain ⟨ha, hb, hc⟩ := hinv
  have hidmem : ∀ d ∈ userDocs db u, d.id ∈ saves.map Prod.fst := by
    intro d hd
    exact List.mem_map.mpr ⟨(d.id, d.lastUpdated), ha d hd, rfl⟩
  have hany : (db.conversations.any (fun d =>
      d.id = (conversationDocFor tid u ck md now).id &&
      d.userId = (conversationDocFor tid u ck md now).userId)) = false := by
    rw [List.any_eq_false]
    intro d hd
    simp only [conversationDocFor, Bool.and_eq_true, decide_eq_true_eq, not_and]
    intro hid huid
    have hdu : d ∈ userDocs db u :=
      List.mem_filter.mpr ⟨hd, by simp [huid]⟩
    exact hfresh (hid ▸ hidmem d hdu)
  have hups : userDocs (convUpsertState db (conversationDocFor tid u ck md now)) u =
      userDocs db u ++ [conversationDocFor tid u ck md now] := by
    simp only [convUpsertState, userDocs, upsertConversationDoc]
    rw [hany]
    simp only [Bool.false_eq_true, if_false, List.filter_append]
    congr 1
    simp [conversationDocFor]
  refine ⟨?_, ?_, ?_⟩
  · intro d hd
    rw [hups] at hd
    rcases List.mem_append.mp hd with h | h
    · exact List.mem_append_left _ (ha d h)
    · rw [List.mem_singleton.mp h]
      exact List.mem_append_right _ (List.mem_singleton.mpr rfl)
  · rw [hups]
    rw [List.map_append, List.nodup_append]
    refine ⟨hb, by simp, ?_⟩
    intro a hamem
    simp only [List.map_cons, List.map_nil, List.mem_singleton]
    intro hcontra
    rcases List.mem_map.mp hamem with ⟨d, hd, hda⟩
    subst hda
    rw [show (conversationDocFor tid u ck md now).id = tid from rfl] at hcontra
    exact hfresh (hcontra ▸ hidmem d hd)
  · intro _
    by_cases hsaves : saves = []
    · subst hsaves
      have hempty : userDocs db u = [] := by
        rw [List.eq_nil_iff_forall_not_mem]
        intro d hd
        simpa using ha d hd
      refine ⟨conversationDocFor tid u ck md now, ?_, ?_⟩
      · rw [hups, hempty]
        simp
      · intro s hs
        simp only [List.nil_append, List.mem_singleton] at hs
        subst hs
        exact le_refl _
    · rcases hc hsaves with ⟨dm, hdm, hdmax⟩
      rcases le_total dm.lastUpdated now with hle | hge
      · refine ⟨conversationDocFor tid u ck md now, ?_, ?_⟩
        · rw [hups]
          exact List.mem_append_right _ (List.mem_singleton.mpr rfl)
        · intro s hs
          rcases List.mem_append.mp hs with h | h
          · exact le_trans (hdmax s h) hle
          · rw [List.mem_singleton.mp h]
            exact le_refl _
      · refine ⟨dm, by rw [hups]; exact List.mem_append_left _ hdm, ?_⟩
        intro s hs
        rcases List.mem_append.mp hs with h | h
        · exact hdmax s h
        · rw [List.mem_singleton.mp h]
          exact hge

theorem convInv_cleanup (u : String) (saves : List (String × String)) (db : CosmosDB)
    (hinv : ConvInv u saves db) :
    ConvInv u saves (cleanup_old_conversations db u) := by
  obtain ⟨ha, hb, hc⟩ := hinv
  rcases cleanup_result u db hb with ⟨hempty, heq⟩ | ⟨m, hm, hmem, hmax⟩
  · rw [heq]
    exact ⟨ha, hb, hc⟩
  · refine ⟨?_, ?_, ?_⟩
    · intro d hd
      rw [hm] at hd
      rw [List.mem_singleton.mp hd]
      exact ha m hmem
    · rw [hm]
      simp
    · intro hne
      refine ⟨m, by rw [hm]; exact List.mem_singleton.mpr rfl, ?_⟩
      intro s hs
      rcases hc hne with ⟨dm, hdm, hdmax⟩
      exact le_trans (hdmax s hs) (hmax dm hdm)

theorem runConvOps_inv (u : String) (ops : List ConvOp) :
    ∀ (db : CosmosDB) (saves : List (String × String)),
    ConvInv u saves db →
    ((saves ++ savesOf ops).map Prod.fst).Nodup →
    ConvInv u (saves ++ savesOf ops) (runConvOps u db ops) := by
  induction ops with
  | nil =>
      intro db saves hinv _
      simpa [savesOf, runConvOps] using hinv
  | cons op rest ih =>
      intro db saves hinv hnd
      cases op with
      | save tid ck md now =>
          simp only [runConvOps, savesOf]
          have hassoc : saves ++ (tid, now) :: savesOf rest =
              (saves ++ [(tid, now)]) ++ savesOf rest := by simp
          rw [hassoc]
          rw [savesOf, hassoc] at hnd
          have hnd2 := hnd
          rw [List.map_append, List.nodup_append] at hnd2
          have h1 := hnd2.1
          rw [List.map_append, List.nodup_append] at h1
          apply ih
          · apply convInv_upsert u saves db tid ck md now hinv
            intro hmem
            exact h1.2.2 hmem (by simp)
          · exact hnd
      | reconcile =>
          simp only [runConvOps, savesOf]
          rw [savesOf] at hnd
          exact ih _ saves (convInv_cleanup u saves db hinv) hnd

/-- Claim C4 (confirmed): starting from a store with no conversation document
for the user, after any sequence of checkpoint-driven conversation upserts
with pairwise-distinct thread ids (and distinct timestamps) interleaved with
`cleanup_old_conversations` calls, a final `cleanup_old_conversations` leaves
exactly one conversation document for that user, and it is the document of
the upsert with the latest `lastUpdated` timestamp (strictly later than every
other upsert's). -/
theorem one_conversation_invariant (db : CosmosDB) (u : String) (ops : List ConvOp)
    (hinit : userDocs db u = [])
    (htids : ((savesOf ops).map Prod.fst).Nodup)
    (htimes : ((savesOf ops).map Prod.snd).Nodup)
    (hsome : savesOf ops ≠ []) :
    ∃ d, userDocs (cleanup_old_conversations (runConvOps u db ops) u) u = [d] ∧
      (d.id, d.lastUpdated) ∈ savesOf ops ∧
      (∀ s ∈ savesOf ops, s.2 ≤ d.lastUpdated) ∧
      (∀ s ∈ savesOf ops, s ≠ (d.id, d.lastUpdated) → s.2 < d.lastUpdated) := by
  have hinv0 : ConvInv u [] db := by
    refine ⟨?_, ?_, ?_⟩
    · intro d hd
      rw [hinit] at hd
      simp at hd
    · rw [hinit]
      simp
    · intro h
      exact absurd rfl h
  have hinv := runConvOps_inv u ops db [] hinv0 (by simpa using htids)
  simp only [List.nil_append] at hinv
  rcases cleanup_result u (runConvOps u db ops) hinv.2.1 with
    ⟨hempty, _⟩ | ⟨m, hm, hmem, hmax⟩
  · exfalso
    rcases hinv.2.2 hsome with ⟨d, hd, _⟩
    rw [hempty] at hd
    simp at hd
  · have hle : ∀ s ∈ savesOf ops, s.2 ≤ m.lastUpdated := by
      intro s hs
      rcases hinv.2.2 hsome with ⟨dmax, hdmem, hdall⟩
      exact le_trans (hdall s hs) (hmax dmax hdmem)
    refine ⟨m, hm, hinv.1 m hmem, hle, ?_⟩
    intro s hs hne
    refine lt_of_le_of_ne (hle s hs) ?_
    intro heq2
    have hs2 : (m.id, m.lastUpdated) ∈ savesOf ops := hinv.1 m hmem
    exact hne (List.inj_on_of_nodup_map htimes hs hs2 (by simpa using heq2))

/-- Witness for C4: two saves for distinct threads with a reconcile in
between; the final reconcile leaves only the later document. -/
theorem one_conversation_invariant_witness :
    ∃ d, userDocs (cleanup_old_conversations (runConvOps "alice" ⟨[], [], []⟩
        [.save "t1" ⟨"c1", []⟩ .nil "2024-01-01T00:00:00", .reconcile,
         .save "t2" ⟨"c2", []⟩ .nil "2024-01-02T00:00:00"]) "alice") "alice" = [d] ∧
      (d.id, d.lastUpdated) ∈ savesOf
        [.save "t1" ⟨"c1", []⟩ .nil "2024-01-01T00:00:00", .reconcile,
         .save "t2" ⟨"c2", []⟩ .nil "2024-01-02T00:00:00"] ∧
      (∀ s ∈ savesOf
        [.save "t1" ⟨"c1", []⟩ .nil "2024-01-01T00:00:00", .reconcile,
         .save "t2" ⟨"c2", []⟩ .nil "2024-01-02T00:00:00"],
        s.2 ≤ d.lastUpdated) ∧
      (∀ s ∈ savesOf
        [.save "t1" ⟨"c1", []⟩ .nil "2024-01-01T00:00:00", .reconcile,
         .save "t2" ⟨"c2", []⟩ .nil "2024-01-02T00:00:00"],
        s ≠ (d.id, d.lastUpdated) → s.2 < d.lastUpdated) :=
  one_conversation_invariant ⟨[], [], []⟩ "alice"
    [.save "t1" ⟨"c1", []⟩ .nil "2024-01-01T00:00:00", .reconcile,
     .save "t2" ⟨"c2", []⟩ .nil "2024-01-02T00:00:00"]
    rfl (by decide) (by decide) (by decide)
